import Mathlib

/-!
# Verification of the Animated Image Creator core

Shallow embedding of the binary-assembly core of the repository
(`src/App.tsx` and the WebP container assembler `webp-assembler.ts`),
together with proofs about it.

Byte buffers are modelled as `List Nat`.  On a real `Uint8Array` every
entry is `< 256`; theorems assume this through `IsBytes` where it
matters.  JavaScript reads of a typed array out of bounds yield
`undefined`, which behaves as `0` inside the bitwise expressions used by
the source, so `getByte` defaults to `0`; out-of-bounds writes on a
typed array are silently dropped, which matches `List.set`.
-/

namespace AIC

/-- Buffers whose entries are genuine bytes (`Uint8Array` contents). -/
def IsBytes (data : List Nat) : Prop := ∀ b ∈ data, b < 256

instance (data : List Nat) : Decidable (IsBytes data) :=
  inferInstanceAs (Decidable (∀ b ∈ data, b < 256))

/-- `data[i]` on a `Uint8Array`: out-of-bounds reads give `undefined`,
which coerces to `0` in the bitwise contexts the source uses. -/
def getByte (data : List Nat) (i : Nat) : Nat := data.getD i 0

/-- Big-endian 32-bit read
`(data[i] << 24) | (data[i+1] << 16) | (data[i+2] << 8) | data[i+3]`
(App.tsx line 24); also the value of `DataView.getUint32` used by
`isAnimatedPNG`.  For bytes `< 256` the bit patterns do not overlap, so
the `|` combination is plain addition. -/
def readU32BE (data : List Nat) (i : Nat) : Nat :=
  getByte data i * 16777216 + getByte data (i + 1) * 65536 +
    getByte data (i + 2) * 256 + getByte data (i + 3)

/-! ## CRC-32 (`calculateCRC`, App.tsx lines 63-74) -/

/-- One iteration of the inner loop of `calculateCRC`:
`crc = (crc & 1) ? (0xEDB88320 ^ (crc >>> 1)) : (crc >>> 1)`. -/
def crcStep (crc : Nat) : Nat :=
  if crc % 2 = 1 then 0xEDB88320 ^^^ crc / 2 else crc / 2

/-- The eight inner-loop iterations that process one byte. -/
def crc8 (crc : Nat) : Nat := crcStep^[8] crc

/-- `calculateCRC` (App.tsx lines 63-74): start from `0xFFFFFFFF`, for
each byte xor it in and run eight conditional shift/xor steps, finally
invert.  The JavaScript variable holds 32-bit patterns (sometimes as
negative int32); the model tracks the same pattern as a `Nat < 2^32`. -/
def calculateCRC (data : List Nat) : Nat :=
  (data.foldl (fun crc b => crc8 (crc ^^^ b)) 0xFFFFFFFF) ^^^ 0xFFFFFFFF

/-- Entry `n` of the CRC-32 table of the canonical reference
implementation (PNG specification, Annex D `make_crc_table`): eight
conditional shift/xor iterations applied to `n` itself. -/
def crcTable (n : Nat) : Nat := crcStep^[8] n

/-- The canonical table-driven CRC-32 reference (PNG specification,
Annex D `update_crc`): per byte `c = crc_table[(c ^ byte) & 0xff] ^ (c >> 8)`,
with initial value `0xFFFFFFFF` and final inversion.  This is the
specification-side definition that `calculateCRC` is compared against. -/
def crc32Ref (data : List Nat) : Nat :=
  (data.foldl (fun c b => crcTable ((c ^^^ b) % 256) ^^^ c / 256) 0xFFFFFFFF) ^^^ 0xFFFFFFFF

theorem xor_div_two (a b : Nat) : (a ^^^ b) / 2 = a / 2 ^^^ b / 2 := by
  apply Nat.eq_of_testBit_eq
  intro i
  simp [Nat.testBit_div_two, Nat.testBit_xor]

theorem testBit_div_two_pow (x n i : Nat) : (x / 2 ^ n).testBit i = x.testBit (i + n) := by
  induction n generalizing i with
  | zero => simp
  | succ n ih =>
    have h : x / 2 ^ (n + 1) = x / 2 ^ n / 2 := by
      rw [Nat.div_div_eq_div_mul, pow_succ]
    rw [h, Nat.testBit_div_two, ih]
    congr 1
    omega

theorem xor_div_two_pow (a b n : Nat) :
    (a ^^^ b) / 2 ^ n = a / 2 ^ n ^^^ b / 2 ^ n := by
  apply Nat.eq_of_testBit_eq
  intro i
  simp [testBit_div_two_pow, Nat.testBit_xor]

theorem xor_two_mul_mod_two (a b : Nat) : (a ^^^ 2 * b) % 2 = a % 2 := by
  have h := Nat.testBit_xor a (2 * b) 0
  simp only [Nat.testBit_zero, Nat.mul_mod_right] at h
  rcases Nat.mod_two_eq_zero_or_one a with ha | ha <;>
    rcases Nat.mod_two_eq_zero_or_one (a ^^^ 2 * b) with hx | hx <;>
      simp [ha, hx] at h ⊢

theorem crcStep_xor_shift (a b : Nat) :
    crcStep (a ^^^ 2 * b) = crcStep a ^^^ b := by
  unfold crcStep
  have hdiv : (a ^^^ 2 * b) / 2 = a / 2 ^^^ b := by
    rw [xor_div_two]
    congr 1
    omega
  rw [xor_two_mul_mod_two]
  rcases Nat.mod_two_eq_zero_or_one a with h | h
  · simp [h, hdiv]
  · simp [h, hdiv, Nat.xor_assoc]

theorem crcStep_iterate_xor_shift (n a b : Nat) :
    crcStep^[n] (a ^^^ 2 ^ n * b) = crcStep^[n] a ^^^ b := by
  induction n generalizing a with
  | zero => simp
  | succ n ih =>
    have h : (2 : Nat) ^ (n + 1) * b = 2 * (2 ^ n * b) := by ring
    rw [h, Function.iterate_succ_apply, Function.iterate_succ_apply,
      crcStep_xor_shift, ih]

theorem mod_xor_mul_div (x n : Nat) : x % 2 ^ n ^^^ 2 ^ n * (x / 2 ^ n) = x := by
  apply Nat.eq_of_testBit_eq
  intro i
  rw [Nat.testBit_xor, Nat.testBit_mod_two_pow,
    show 2 ^ n * (x / 2 ^ n) = (x / 2 ^ n) <<< n by rw [Nat.shiftLeft_eq]; ring,
    Nat.testBit_shiftLeft]
  by_cases h : i < n
  · simp [h, Nat.not_le.mpr h]
  · have hge : i ≥ n := Nat.le_of_not_lt h
    have ht : (x / 2 ^ n).testBit (i - n) = x.testBit i := by
      rw [testBit_div_two_pow]
      congr 1
      omega
    simp [h, hge, ht]

/-- Per-byte agreement between the source's bit-at-a-time update and the
canonical table-driven update. -/
theorem crc8_byte_eq (c b : Nat) (hb : b < 256) :
    crc8 (c ^^^ b) = crcTable ((c ^^^ b) % 256) ^^^ c / 256 := by
  have hdiv : (c ^^^ b) / 256 = c / 256 := by
    have h := xor_div_two_pow c b 8
    rw [show (2 : Nat) ^ 8 = 256 by norm_num] at h
    rw [h, Nat.div_eq_of_lt hb]
    simp
  conv_lhs => rw [← mod_xor_mul_div (c ^^^ b) 8]
  unfold crc8
  rw [crcStep_iterate_xor_shift]
  rw [show (2 : Nat) ^ 8 = 256 by norm_num, hdiv]
  rfl

theorem foldl_crc_eq (data : List Nat) (h : IsBytes data) (c : Nat) :
    data.foldl (fun crc b => crc8 (crc ^^^ b)) c =
      data.foldl (fun c b => crcTable ((c ^^^ b) % 256) ^^^ c / 256) c := by
  induction data generalizing c with
  | nil => rfl
  | cons b rest ih =>
    have hb : b < 256 := h b (List.mem_cons_self b rest)
    have hrest : IsBytes rest := fun x hx => h x (List.mem_cons_of_mem b hx)
    simp only [List.foldl_cons]
    rw [crc8_byte_eq c b hb, ih hrest]

/-- The CRC state stays below `2^32` when fed genuine bytes. -/
theorem calculateCRC_lt (data : List Nat) (h : IsBytes data) :
    calculateCRC data < 2 ^ 32 := by
  have hstep : ∀ c, c < 2 ^ 32 → crcStep c < 2 ^ 32 := by
    intro c hc
    unfold crcStep
    have h2 : c / 2 < 2 ^ 32 := by omega
    split
    · exact Nat.xor_lt_two_pow (by norm_num) h2
    · exact h2
  have hiter : ∀ c, c < 2 ^ 32 → crc8 c < 2 ^ 32 := by
    intro c hc
    unfold crc8
    have hind : ∀ n c, c < 2 ^ 32 → crcStep^[n] c < 2 ^ 32 := by
      intro n
      induction n with
      | zero => intro c hc; simpa using hc
      | succ n ih =>
        intro c hc
        rw [Function.iterate_succ_apply]
        exact ih _ (hstep c hc)
    exact hind 8 c hc
  have hfold : ∀ (l : List Nat), IsBytes l → ∀ c, c < 2 ^ 32 →
      l.foldl (fun crc b => crc8 (crc ^^^ b)) c < 2 ^ 32 := by
    intro l
    induction l with
    | nil => intro _ c hc; simpa using hc
    | cons b rest ih =>
      intro hl c hc
      have hb : b < 256 := hl b (List.mem_cons_self b rest)
      have hrest : IsBytes rest := fun x hx => hl x (List.mem_cons_of_mem b hx)
      simp only [List.foldl_cons]
      exact ih hrest _ (hiter _ (Nat.xor_lt_two_pow hc (Nat.lt_of_lt_of_le hb (by norm_num))))
  unfold calculateCRC
  exact Nat.xor_lt_two_pow (hfold data h _ (by norm_num)) (by norm_num)

set_option maxRecDepth 4096 in
/-- C4: `calculateCRC` computes the standard PNG / IEEE-802.3 CRC-32
(reflected polynomial 0xEDB88320, initial value 0xFFFFFFFF, final
inversion): it agrees with the canonical table-driven reference
implementation on every byte sequence, and reproduces the published
test vectors for the ASCII bytes "IEND" (0xAE426082) and
"123456789" (0xCBF43926). -/
theorem C4_calculateCRC_standard :
    (∀ data : List Nat, IsBytes data → calculateCRC data = crc32Ref data) ∧
    calculateCRC [73, 69, 78, 68] = 0xAE426082 ∧
    calculateCRC [49, 50, 51, 52, 53, 54, 55, 56, 57] = 0xCBF43926 := by
  refine ⟨fun data h => ?_, by decide, by decide⟩
  unfold calculateCRC crc32Ref
  rw [foldl_crc_eq data h]

/-- Closed instantiation of `C4_calculateCRC_standard` discharging its
`IsBytes` hypothesis on the concrete "IEND" byte sequence. -/
theorem C4_calculateCRC_standard_witness :
    calculateCRC [73, 69, 78, 68] = crc32Ref [73, 69, 78, 68] :=
  C4_calculateCRC_standard.1 [73, 69, 78, 68] (by decide)

/-! ## Animation detection (`isAnimatedPNG`, App.tsx lines 77-110) -/

/-- `DataView.getUint32(i)` (big-endian by default): throws a
`RangeError` — modelled as `Except.error` — when the 4-byte read does
not fit inside the buffer. -/
def getUint32 (data : List Nat) (i : Nat) : Except Unit Nat :=
  if i + 4 ≤ data.length then .ok (readU32BE data i) else .error ()

/-- The chunk-scanning loop of `isAnimatedPNG` (lines 92-107).  The
JavaScript guard `i < maxSearchLength - 8` is exact arithmetic, i.e.
`i + 8 < maxSearchLength`; `chunkLength` comes from `getUint32` and is
therefore non-negative, so the cursor advances by at least 12 each
step and the loop terminates.  All reads inside the loop are in bounds
because `i + 8 < maxSearch ≤ data.length`, so the `DataView` cannot
throw there. -/
def scanAcTLGo (data : List Nat) (maxSearch : Nat) : Nat → Nat → Bool
  | 0, _ => false
  | fuel + 1, i =>
    if i + 8 < maxSearch then
      if readU32BE data (i + 4) = 0x6163544C then true
      else if readU32BE data (i + 4) = 0x49444154 then false
      else scanAcTLGo data maxSearch fuel (i + 12 + readU32BE data i)
    else false

/-- The result of the scan does not depend on the fuel once the fuel
covers the worst case of one iteration per 12 bytes of search window:
the bound, not the fuel, terminates the loop. -/
theorem scanAcTLGo_fuel_irrel (data : List Nat) (maxSearch : Nat) :
    ∀ fuel₁ fuel₂ i, maxSearch ≤ i + 8 + 12 * fuel₁ → maxSearch ≤ i + 8 + 12 * fuel₂ →
      scanAcTLGo data maxSearch fuel₁ i = scanAcTLGo data maxSearch fuel₂ i := by
  intro fuel₁
  induction fuel₁ with
  | zero =>
    intro fuel₂ i h1 _
    cases fuel₂ with
    | zero => rfl
    | succ f2 =>
      simp only [scanAcTLGo]
      rw [if_neg (by omega)]
  | succ f1 ih =>
    intro fuel₂ i h1 h2
    cases fuel₂ with
    | zero =>
      simp only [scanAcTLGo]
      rw [if_neg (by omega)]
    | succ f2 =>
      simp only [scanAcTLGo]
      by_cases hg : i + 8 < maxSearch
      · rw [if_pos hg, if_pos hg]
        by_cases ha : readU32BE data (i + 4) = 0x6163544C
        · simp [ha]
        · by_cases hd : readU32BE data (i + 4) = 0x49444154
          · simp [ha, hd]
          · simp only [ha, hd, if_false]
            exact ih f2 (i + 12 + readU32BE data i) (by omega) (by omega)
      · rw [if_neg hg, if_neg hg]

/-- The scan with its canonical fuel (`maxSearch` iterations are never
exhausted, by `scanAcTLGo_fuel_irrel`). -/
def scanAcTL (data : List Nat) (maxSearch : Nat) (i : Nat) : Bool :=
  scanAcTLGo data maxSearch maxSearch i

/-- `isAnimatedPNG` (App.tsx lines 77-110), with `DataView` range
errors modelled by `Except.error`.  The `||` in the signature check
short-circuits: the read at offset 4 only happens when the first four
bytes matched the PNG magic `0x89504E47`. -/
def isAnimatedPNG (data : List Nat) : Except Unit Bool :=
  match getUint32 data 0 with
  | .error e => .error e
  | .ok m0 =>
    if m0 ≠ 0x89504E47 then .ok false
    else
      match getUint32 data 4 with
      | .error e => .error e
      | .ok m1 =>
        if m1 ≠ 0x0D0A1A0A then .ok false
        else .ok (scanAcTL data (min data.length 10000) 8)

/-- C6 counterexample: on the empty buffer — shorter than the 8-byte
PNG signature — `isAnimatedPNG` raises a `RangeError` from
`DataView.getUint32(0)` instead of returning `false` as the claim
demands. -/
theorem C6_isAnimatedPNG_cex : isAnimatedPNG [] = Except.error () := by
  rfl

/-- C6 (amended): `isAnimatedPNG` terminates on every input.  For every
buffer of length at least 8 it returns a boolean without raising:
`true` exactly when the bounded chunk scan (first
`min (length, 10000)` bytes) meets an acTL chunk type before any IDAT
chunk type after a valid PNG signature, and `false` otherwise.  For a
buffer of length at least 4 whose first four bytes are not the PNG
magic it also returns `false` without raising.  (Buffers of length
less than 4, or of length 4..7 starting with the PNG magic, raise a
range error — this is what the original claim got wrong.) -/
theorem C6_isAnimatedPNG_safe (data : List Nat) :
    (8 ≤ data.length →
      isAnimatedPNG data =
        .ok (if readU32BE data 0 = 0x89504E47 ∧ readU32BE data 4 = 0x0D0A1A0A
             then scanAcTL data (min data.length 10000) 8
             else false)) ∧
    (4 ≤ data.length → readU32BE data 0 ≠ 0x89504E47 →
      isAnimatedPNG data = .ok false) := by
  constructor
  · intro h8
    have h0 : getUint32 data 0 = .ok (readU32BE data 0) := by
      unfold getUint32
      rw [if_pos (by omega)]
    have h4 : getUint32 data 4 = .ok (readU32BE data 4) := by
      unfold getUint32
      rw [if_pos (by omega)]
    unfold isAnimatedPNG
    rw [h0]
    by_cases hm0 : readU32BE data 0 = 0x89504E47
    · simp only [hm0]
      rw [h4]
      by_cases hm1 : readU32BE data 4 = 0x0D0A1A0A
      · simp [hm1]
      · simp [hm1]
    · simp [hm0]
  · intro h4 hm0
    have h0 : getUint32 data 0 = .ok (readU32BE data 0) := by
      unfold getUint32
      rw [if_pos (by omega)]
    unfold isAnimatedPNG
    rw [h0]
    simp [hm0]

/-- Closed instantiation of `C6_isAnimatedPNG_safe` on a concrete
28-byte animated-PNG prefix (signature followed by an acTL chunk):
detection returns `ok true` and does not raise. -/
theorem C6_isAnimatedPNG_safe_witness :
    isAnimatedPNG
      [137, 80, 78, 71, 13, 10, 26, 10,
       0, 0, 0, 8, 97, 99, 84, 76,
       0, 0, 0, 1, 0, 0, 0, 0, 0, 0, 0, 0] = Except.ok true := by
  rw [(C6_isAnimatedPNG_safe
    [137, 80, 78, 71, 13, 10, 26, 10,
     0, 0, 0, 8, 97, 99, 84, 76,
     0, 0, 0, 1, 0, 0, 0, 0, 0, 0, 0, 0]).1 (by decide)]
  exact congrArg Except.ok (by decide)

/-! ## Loop-count patching (`setAPNGLoopCount`, App.tsx lines 19-60)

The patch loop reads the chunk length with `<<`/`|` arithmetic, which
produces a *signed* 32-bit value; a corrupted length with the sign bit
set would move the cursor backwards and the JavaScript loop would not
terminate.  The model therefore uses `Int` offsets, an explicit
`int32` reinterpretation, and a fuel bound (`none` = the bound was
exhausted, which only happens on such corrupted walks). -/

/-- JavaScript `ToInt32`, as produced by the `<<`/`|` arithmetic on
line 24 of App.tsx. -/
def int32 (n : Nat) : Int :=
  if n % 4294967296 < 2147483648 then (n % 4294967296 : Int)
  else (n % 4294967296 : Int) - 4294967296

/-- `data[i]` with a JavaScript index that may be negative (negative
and past-the-end indices read `undefined`, i.e. `0` in bit arithmetic). -/
def getByteI (data : List Nat) (i : Int) : Nat :=
  if i < 0 then 0 else getByte data i.toNat

def readU32BEI (data : List Nat) (i : Int) : Nat :=
  getByteI data i * 16777216 + getByteI data (i + 1) * 65536 +
    getByteI data (i + 2) * 256 + getByteI data (i + 3)

/-- `data[i] = v` on a `Uint8Array`: out-of-range (including negative)
indices are silently ignored. -/
def setByteI (data : List Nat) (i : Int) (v : Nat) : List Nat :=
  if i < 0 then data else data.set i.toNat v

/-- Write the four big-endian bytes of the 32-bit value of `v`
(App.tsx lines 37-40 / 47-50: `(v >> 24) & 0xFF` ... `v & 0xFF`). -/
def writeU32BEI (data : List Nat) (i : Int) (v : Nat) : List Nat :=
  setByteI (setByteI (setByteI (setByteI data
    i (v % 4294967296 / 16777216 % 256))
    (i + 1) (v % 4294967296 / 65536 % 256))
    (i + 2) (v % 4294967296 / 256 % 256))
    (i + 3) (v % 4294967296 % 256)

/-- `Uint8Array.slice(b, e)` index resolution: a negative index counts
from the end of the array, then both are clamped to `[0, length]`. -/
def jsIndex (len : Nat) (i : Int) : Nat :=
  if i < 0 then ((len : Int) + i).toNat else min i.toNat len

/-- `Uint8Array.slice(b, e)` (line 44). -/
def jsSlice (data : List Nat) (b e : Int) : List Nat :=
  (data.take (jsIndex data.length e)).drop (jsIndex data.length b)

/-- Lines 25-27: `String.fromCharCode(data[o+4], ..., data[o+7]) === 'acTL'`.
`fromCharCode` reduces each value mod 2^16 and `'acTL'` has character
codes 97, 99, 84, 76. -/
def acTLAtI (data : List Nat) (o : Int) : Bool :=
  getByteI data (o + 4) % 65536 == 97 && getByteI data (o + 5) % 65536 == 99 &&
    getByteI data (o + 6) % 65536 == 84 && getByteI data (o + 7) % 65536 == 76

/-- The acTL branch of `setAPNGLoopCount` (lines 27-52): copy the
buffer, overwrite `num_plays` at `offset + 12` big-endian, recompute
the CRC over `modifiedData.slice(offset + 4, offset + 8 + chunkLength)`
and write it at `offset + 8 + chunkLength`. -/
def patchAcTL (data : List Nat) (offset chunkLength : Int) (loopCount : Nat) : List Nat :=
  writeU32BEI (writeU32BEI data (offset + 12) loopCount) (offset + 8 + chunkLength)
    (calculateCRC (jsSlice (writeU32BEI data (offset + 12) loopCount) (offset + 4)
      (offset + 8 + chunkLength)))

/-- The chunk walk of `setAPNGLoopCount` (lines 23-56):
`while (offset < data.length - 8)`, reading the signed 32-bit chunk
length and advancing by `12 + chunkLength`.  With non-negative chunk
lengths each step advances by at least 12, so `data.length + 1`
iterations of fuel are never exhausted. -/
def setLoopGo (data : List Nat) (loopCount : Nat) : Nat → Int → Option (List Nat)
  | 0, _ => none
  | fuel + 1, offset =>
    if offset < (data.length : Int) - 8 then
      if acTLAtI data offset then
        some (patchAcTL data offset (int32 (readU32BEI data offset)) loopCount)
      else setLoopGo data loopCount fuel (offset + 12 + int32 (readU32BEI data offset))
    else some data

/-- `setAPNGLoopCount` (App.tsx lines 19-60). -/
def setAPNGLoopCount (data : List Nat) (loopCount : Nat) : Option (List Nat) :=
  setLoopGo data loopCount (data.length + 1) 8

/-- Specification-side scanner for the patch walk.  It follows the same
cursor as `setLoopGo` and returns `some (some pos)` when the acTL chunk
header starts at byte offset `pos`, `some none` when the loop exits
without finding one, and `none` when the walk cannot be certified
(fuel exhausted, or a chunk length with the int32 sign bit set). -/
def findAcTL (data : List Nat) : Nat → Nat → Option (Option Nat)
  | 0, _ => none
  | fuel + 1, offset =>
    if offset + 8 < data.length then
      if readU32BE data offset < 2147483648 then
        if acTLAtI data (offset : Int) then some (some offset)
        else findAcTL data fuel (offset + 12 + readU32BE data offset)
      else none
    else some none

theorem getByteI_coe (data : List Nat) (n : Nat) : getByteI data (n : Int) = getByte data n := by
  simp [getByteI]

theorem getByteI_eq (data : List Nat) (i : Int) (m : Nat) (him : i = (m : Int)) :
    getByteI data i = getByte data m := by
  subst him
  unfold getByteI
  rw [if_neg (by omega)]
  congr 1

theorem readU32BEI_coe (data : List Nat) (n : Nat) :
    readU32BEI data (n : Int) = readU32BE data n := by
  unfold readU32BEI readU32BE
  rw [getByteI_eq data (↑n) n rfl, getByteI_eq data (↑n + 1) (n + 1) (by omega),
    getByteI_eq data (↑n + 2) (n + 2) (by omega),
    getByteI_eq data (↑n + 3) (n + 3) (by omega)]

theorem int32_coe (n : Nat) (h : n < 2147483648) : int32 n = (n : Int) := by
  unfold int32
  split <;> omega

/-- `writeU32BEI` at a non-negative index, with `Nat` arithmetic. -/
def writeU32BE (data : List Nat) (i v : Nat) : List Nat :=
  (((data.set i (v % 4294967296 / 16777216 % 256)).set
    (i + 1) (v % 4294967296 / 65536 % 256)).set
    (i + 2) (v % 4294967296 / 256 % 256)).set
    (i + 3) (v % 4294967296 % 256)

/-- The acTL patch body at a non-negative offset with a non-negative
in-bounds chunk length (`patchAcTL` specialised away from the `Int`
plumbing). -/
def patchN (data : List Nat) (pos len lc : Nat) : List Nat :=
  writeU32BE (writeU32BE data (pos + 12) lc) (pos + 8 + len)
    (calculateCRC (((writeU32BE data (pos + 12) lc).take (pos + 8 + len)).drop (pos + 4)))

theorem setByteI_eq (data : List Nat) (i : Int) (m v : Nat) (him : i = (m : Int)) :
    setByteI data i v = data.set m v := by
  subst him
  unfold setByteI
  rw [if_neg (by omega)]
  simp

theorem writeU32BEI_coe (data : List Nat) (n v : Nat) :
    writeU32BEI data (n : Int) v = writeU32BE data n v := by
  unfold writeU32BEI writeU32BE
  rw [setByteI_eq data (↑n) n _ rfl,
    setByteI_eq _ (↑n + 1) (n + 1) _ (by omega),
    setByteI_eq _ (↑n + 2) (n + 2) _ (by omega),
    setByteI_eq _ (↑n + 3) (n + 3) _ (by omega)]

theorem take_jsIndex (data : List Nat) (e : Nat) :
    data.take (jsIndex data.length (e : Int)) = data.take e := by
  unfold jsIndex
  rw [if_neg (by omega), show (e : Int).toNat = e by omega]
  rcases Nat.le_total e data.length with h | h
  · rw [min_eq_left h]
  · rw [min_eq_right h, List.take_length]
    rw [List.take_of_length_le h]

theorem drop_jsIndex (data : List Nat) (b : Nat) :
    data.drop (jsIndex data.length (b : Int)) = data.drop b := by
  unfold jsIndex
  rw [if_neg (by omega)]
  rcases Nat.le_total b data.length with h | h
  · rw [show (b : Int).toNat = b by omega, min_eq_left h]
  · rw [show (b : Int).toNat = b by omega]
    rw [min_eq_right h, List.drop_length, List.drop_eq_nil_of_le h]

theorem jsSlice_coe (data : List Nat) (b e : Nat) :
    jsSlice data (b : Int) (e : Int) = (data.take e).drop b := by
  unfold jsSlice
  rw [take_jsIndex]
  unfold jsIndex
  rw [if_neg (by omega), show (b : Int).toNat = b by omega]
  rcases Nat.le_total b data.length with hb | hb
  · rw [min_eq_left hb]
  · rw [min_eq_right hb]
    rw [List.drop_eq_nil_of_le (by rw [List.length_take]; omega)]
    rw [List.drop_eq_nil_of_le (by rw [List.length_take]; omega)]

theorem patchAcTL_coe (data : List Nat) (pos len lc : Nat) :
    patchAcTL data (pos : Int) (len : Int) lc = patchN data pos len lc := by
  unfold patchAcTL patchN
  have hm : writeU32BEI data ((pos : Int) + 12) lc = writeU32BE data (pos + 12) lc := by
    rw [show ((pos : Int) + 12) = ((pos + 12 : Nat) : Int) by omega, writeU32BEI_coe]
  rw [hm]
  have hco : (pos : Int) + 8 + (len : Int) = ((pos + 8 + len : Nat) : Int) := by omega
  rw [hco]
  have hsl : jsSlice (writeU32BE data (pos + 12) lc) ((pos : Int) + 4) ((pos + 8 + len : Nat) : Int) =
      ((writeU32BE data (pos + 12) lc).take (pos + 8 + len)).drop (pos + 4) := by
    rw [show ((pos : Int) + 4) = ((pos + 4 : Nat) : Int) by omega, jsSlice_coe]
  rw [hsl, writeU32BEI_coe]

theorem getByte_set_ne (l : List Nat) (i j v : Nat) (h : i ≠ j) :
    getByte (l.set i v) j = getByte l j := by
  unfold getByte
  rw [List.getD_eq_getElem?_getD, List.getD_eq_getElem?_getD, List.getElem?_set, if_neg h]

theorem getByte_set_self (l : List Nat) (i v : Nat) (h : i < l.length) :
    getByte (l.set i v) i = v := by
  unfold getByte
  rw [List.getD_eq_getElem?_getD, List.getElem?_set, if_pos rfl, if_pos h]
  rfl

theorem length_writeU32BE (data : List Nat) (i v : Nat) :
    (writeU32BE data i v).length = data.length := by
  unfold writeU32BE
  simp [List.length_set]

theorem getByte_writeU32BE_outside (data : List Nat) (i v j : Nat)
    (h : j < i ∨ i + 4 ≤ j) :
    getByte (writeU32BE data i v) j = getByte data j := by
  unfold writeU32BE
  rw [getByte_set_ne _ _ _ _ (by omega), getByte_set_ne _ _ _ _ (by omega),
    getByte_set_ne _ _ _ _ (by omega), getByte_set_ne _ _ _ _ (by omega)]

theorem readU32BE_writeU32BE_self (data : List Nat) (i v : Nat)
    (h : i + 4 ≤ data.length) :
    readU32BE (writeU32BE data i v) i = v % 4294967296 := by
  have h0 : getByte (writeU32BE data i v) i = v % 4294967296 / 16777216 % 256 := by
    unfold writeU32BE
    rw [getByte_set_ne _ _ _ _ (by omega), getByte_set_ne _ _ _ _ (by omega),
      getByte_set_ne _ _ _ _ (by omega),
      getByte_set_self _ _ _ (by first | omega | (simp only [List.length_set]; omega))]
  have h1 : getByte (writeU32BE data i v) (i + 1) = v % 4294967296 / 65536 % 256 := by
    unfold writeU32BE
    rw [getByte_set_ne _ _ _ _ (by omega), getByte_set_ne _ _ _ _ (by omega),
      getByte_set_self _ _ _ (by first | omega | (simp only [List.length_set]; omega))]
  have h2 : getByte (writeU32BE data i v) (i + 2) = v % 4294967296 / 256 % 256 := by
    unfold writeU32BE
    rw [getByte_set_ne _ _ _ _ (by omega),
      getByte_set_self _ _ _ (by first | omega | (simp only [List.length_set]; omega))]
  have h3 : getByte (writeU32BE data i v) (i + 3) = v % 4294967296 % 256 := by
    unfold writeU32BE
    rw [getByte_set_self _ _ _ (by first | omega | (simp only [List.length_set]; omega))]
  unfold readU32BE
  rw [h0, h1, h2, h3]
  have d1 : v % 4294967296 / 16777216 = v % 4294967296 / 65536 / 256 := by
    rw [Nat.div_div_eq_div_mul]
  have d2 : v % 4294967296 / 65536 = v % 4294967296 / 256 / 256 := by
    rw [Nat.div_div_eq_div_mul]
  omega

theorem writeU32BE_writeU32BE_self (l : List Nat) (i a b : Nat) :
    writeU32BE (writeU32BE l i a) i b = writeU32BE l i b := by
  apply List.ext_getElem?
  intro n
  simp only [writeU32BE, List.getElem?_set, List.length_set]
  split_ifs <;> first | rfl | omega

theorem set_writeU32BE_comm (l : List Nat) (i v k w : Nat) (h : k < i ∨ i + 4 ≤ k) :
    (writeU32BE l i v).set k w = writeU32BE (l.set k w) i v := by
  unfold writeU32BE
  rw [List.set_comm _ _ _ (by omega : i + 3 ≠ k), List.set_comm _ _ _ (by omega : i + 2 ≠ k),
    List.set_comm _ _ _ (by omega : i + 1 ≠ k), List.set_comm _ _ _ (by omega : i ≠ k)]

theorem writeU32BE_comm (l : List Nat) (i j a b : Nat) (h : i + 4 ≤ j) :
    writeU32BE (writeU32BE l i a) j b = writeU32BE (writeU32BE l j b) i a := by
  rw [show writeU32BE (writeU32BE l i a) j b =
      (((((writeU32BE l i a).set j (b % 4294967296 / 16777216 % 256)).set
        (j + 1) (b % 4294967296 / 65536 % 256)).set
        (j + 2) (b % 4294967296 / 256 % 256)).set
        (j + 3) (b % 4294967296 % 256)) from rfl]
  rw [set_writeU32BE_comm _ _ _ _ _ (by omega), set_writeU32BE_comm _ _ _ _ _ (by omega),
    set_writeU32BE_comm _ _ _ _ _ (by omega), set_writeU32BE_comm _ _ _ _ _ (by omega)]
  rfl

theorem take_writeU32BE (l : List Nat) (n i v : Nat) (h : n ≤ i) :
    (writeU32BE l i v).take n = l.take n := by
  apply List.ext_getElem?
  intro m
  simp only [writeU32BE, List.getElem?_take, List.getElem?_set, List.length_set]
  split_ifs <;> first | rfl | omega

theorem length_patchN (data : List Nat) (pos len lc : Nat) :
    (patchN data pos len lc).length = data.length := by
  unfold patchN
  rw [length_writeU32BE, length_writeU32BE]

theorem getByte_patchN_outside (data : List Nat) (pos len lc j : Nat)
    (h1 : ¬(pos + 12 ≤ j ∧ j < pos + 16))
    (h2 : ¬(pos + 8 + len ≤ j ∧ j < pos + 12 + len)) :
    getByte (patchN data pos len lc) j = getByte data j := by
  unfold patchN
  rw [getByte_writeU32BE_outside _ _ _ _ (by omega),
    getByte_writeU32BE_outside _ _ _ _ (by omega)]

theorem readU32BE_congr (d1 d2 : List Nat) (i : Nat)
    (h0 : getByte d1 i = getByte d2 i)
    (h1 : getByte d1 (i + 1) = getByte d2 (i + 1))
    (h2 : getByte d1 (i + 2) = getByte d2 (i + 2))
    (h3 : getByte d1 (i + 3) = getByte d2 (i + 3)) :
    readU32BE d1 i = readU32BE d2 i := by
  unfold readU32BE
  rw [h0, h1, h2, h3]

theorem IsBytes_set (l : List Nat) (i v : Nat) (hl : IsBytes l) (hv : v < 256) :
    IsBytes (l.set i v) := by
  intro b hb
  rcases List.mem_or_eq_of_mem_set hb with h | h
  · exact hl b h
  · omega

theorem IsBytes_writeU32BE (data : List Nat) (i v : Nat) (h : IsBytes data) :
    IsBytes (writeU32BE data i v) := by
  unfold writeU32BE
  exact IsBytes_set _ _ _
    (IsBytes_set _ _ _ (IsBytes_set _ _ _ (IsBytes_set _ _ _ h (by omega)) (by omega)) (by omega))
    (by omega)

theorem IsBytes_take_drop (l : List Nat) (n m : Nat) (h : IsBytes l) :
    IsBytes ((l.take n).drop m) :=
  fun b hb => h b (List.mem_of_mem_take (List.mem_of_mem_drop hb))

/-- A successful scan certifies its result: the found position lies at
or after the start offset, its header fits the guard, it carries the
acTL type, and its chunk length is int32-non-negative. -/
theorem findAcTL_found (data : List Nat) :
    ∀ fuel o pos, findAcTL data fuel o = some (some pos) →
      o ≤ pos ∧ pos + 8 < data.length ∧ acTLAtI data (pos : Int) = true ∧
        readU32BE data pos < 2147483648 := by
  intro fuel
  induction fuel with
  | zero =>
    intro o pos h
    simp [findAcTL] at h
  | succ f ih =>
    intro o pos h
    simp only [findAcTL] at h
    by_cases hg : o + 8 < data.length
    · rw [if_pos hg] at h
      by_cases hcl : readU32BE data o < 2147483648
      · rw [if_pos hcl] at h
        by_cases ha : acTLAtI data (o : Int) = true
        · rw [if_pos ha] at h
          obtain rfl : o = pos := by
            have := Option.some.inj h
            exact Option.some.inj this
          exact ⟨Nat.le_refl o, hg, ha, hcl⟩
        · rw [if_neg ha] at h
          obtain ⟨h1, h2, h3, h4⟩ := ih _ _ h
          exact ⟨by omega, h2, h3, h4⟩
      · rw [if_neg hcl] at h
        exact absurd h (by simp)
    · rw [if_neg hg] at h
      have := Option.some.inj h
      exact absurd this (by simp)

/-- The faithful patch loop agrees with the scanner: when the scanner
certifies an outcome, `setLoopGo` either patches at the found position
or passes the buffer through unchanged. -/
theorem setLoopGo_eq_find (data : List Nat) (lc : Nat) :
    ∀ fuel o r, findAcTL data fuel o = some r →
      setLoopGo data lc fuel (o : Int) =
        some (match r with
          | some pos => patchAcTL data (pos : Int) ((readU32BE data pos : Nat) : Int) lc
          | none => data) := by
  intro fuel
  induction fuel with
  | zero =>
    intro o r h
    simp [findAcTL] at h
  | succ f ih =>
    intro o r h
    simp only [findAcTL] at h
    simp only [setLoopGo]
    by_cases hg : o + 8 < data.length
    · rw [if_pos hg] at h
      rw [if_pos (by omega : (o : Int) < (data.length : Int) - 8)]
      by_cases hcl : readU32BE data o < 2147483648
      · rw [if_pos hcl] at h
        rw [readU32BEI_coe, int32_coe _ hcl]
        by_cases ha : acTLAtI data (o : Int) = true
        · rw [if_pos ha] at h
          rw [if_pos ha]
          obtain rfl : (some o : Option Nat) = r := Option.some.inj h
          rfl
        · rw [if_neg ha] at h
          rw [if_neg ha]
          rw [show (o : Int) + 12 + ((readU32BE data o : Nat) : Int) =
            ((o + 12 + readU32BE data o : Nat) : Int) by omega]
          exact ih _ _ h
      · rw [if_neg hcl] at h
        exact absurd h (by simp)
    · rw [if_neg hg] at h
      rw [if_neg (by omega : ¬((o : Int) < (data.length : Int) - 8))]
      obtain rfl : (none : Option Nat) = r := Option.some.inj h
      rfl

theorem acTLAtI_congr (data d2 : List Nat) (o : Nat)
    (hagree : ∀ k, k < 8 → getByte d2 (o + k) = getByte data (o + k)) :
    acTLAtI d2 (o : Int) = acTLAtI data (o : Int) := by
  unfold acTLAtI
  rw [getByteI_eq d2 _ (o + 4) (by omega), getByteI_eq d2 _ (o + 5) (by omega),
    getByteI_eq d2 _ (o + 6) (by omega), getByteI_eq d2 _ (o + 7) (by omega),
    getByteI_eq data _ (o + 4) (by omega), getByteI_eq data _ (o + 5) (by omega),
    getByteI_eq data _ (o + 6) (by omega), getByteI_eq data _ (o + 7) (by omega),
    hagree 4 (by omega), hagree 5 (by omega), hagree 6 (by omega), hagree 7 (by omega)]

/-- Scanning is insensitive to modifications at or after `pos + 12`:
the headers the walk inspects all lie strictly below the payload of
the found chunk. -/
theorem findAcTL_agree (data d2 : List Nat) (pos : Nat)
    (hlen : d2.length = data.length)
    (hagree : ∀ i, i < pos + 12 → getByte d2 i = getByte data i) :
    ∀ fuel o, findAcTL data fuel o = some (some pos) →
      findAcTL d2 fuel o = some (some pos) := by
  intro fuel
  induction fuel with
  | zero =>
    intro o h
    simp [findAcTL] at h
  | succ f ih =>
    intro o h
    have hle := findAcTL_found data (f + 1) o pos h
    simp only [findAcTL] at h ⊢
    by_cases hg : o + 8 < data.length
    · rw [if_pos hg] at h
      rw [if_pos (by omega)]
      have hcl2 : readU32BE d2 o = readU32BE data o := by
        apply readU32BE_congr
        · exact hagree o (by omega)
        · exact hagree (o + 1) (by omega)
        · exact hagree (o + 2) (by omega)
        · exact hagree (o + 3) (by omega)
      rw [hcl2]
      by_cases hcl : readU32BE data o < 2147483648
      · rw [if_pos hcl] at h ⊢
        have ha2 : acTLAtI d2 (o : Int) = acTLAtI data (o : Int) := by
          apply acTLAtI_congr
          intro k hk
          exact hagree (o + k) (by omega)
        rw [ha2]
        by_cases ha : acTLAtI data (o : Int) = true
        · rw [if_pos ha] at h ⊢
          exact h
        · rw [if_neg ha] at h ⊢
          exact ih _ h
      · rw [if_neg hcl] at h
        exact absurd h (by simp)
    · rw [if_neg hg] at h
      have := Option.some.inj h
      exact absurd this (by simp)

/-- Patching twice at the same chunk collapses to the second patch:
the second `num_plays` write overwrites the first and the CRC is
recomputed from bytes that do not include the CRC field itself. -/
theorem patchN_patchN (data : List Nat) (pos L v1 v2 : Nat) (hL : 8 ≤ L) :
    patchN (patchN data pos L v1) pos L v2 = patchN data pos L v2 := by
  unfold patchN
  rw [← writeU32BE_comm _ _ _ _ _ (show pos + 12 + 4 ≤ pos + 8 + L by omega)]
  rw [writeU32BE_writeU32BE_self]
  rw [take_writeU32BE _ _ _ _ (Nat.le_refl (pos + 8 + L))]
  rw [writeU32BE_writeU32BE_self]

/-- A certified find determines the whole run of `setAPNGLoopCount`. -/
theorem setAPNGLoopCount_run (d : List Nat) (lc pos : Nat)
    (hfd : findAcTL d (d.length + 1) 8 = some (some pos)) :
    setAPNGLoopCount d lc = some (patchN d pos (readU32BE d pos) lc) := by
  have h := setLoopGo_eq_find d lc (d.length + 1) 8 (some pos) hfd
  unfold setAPNGLoopCount
  rw [show ((8 : Nat) : Int) = (8 : Int) from by norm_num] at h
  rw [h]
  show some (patchAcTL d (pos : Int) ((readU32BE d pos : Nat) : Int) lc) = _
  rw [patchAcTL_coe]

/-- A certified miss makes `setAPNGLoopCount` the identity. -/
theorem setAPNGLoopCount_miss (d : List Nat) (lc : Nat)
    (hfd : findAcTL d (d.length + 1) 8 = some none) :
    setAPNGLoopCount d lc = some d := by
  have h := setLoopGo_eq_find d lc (d.length + 1) 8 none hfd
  unfold setAPNGLoopCount
  rw [show ((8 : Nat) : Int) = (8 : Int) from by norm_num] at h
  rw [h]

/-- C1: patching the loop count of a buffer whose chunk walk certifies
an acTL chunk at `pos` (with the standard 8-byte-or-larger payload
fitting in the buffer) and re-scanning the patched buffer finds the
same chunk and reads back exactly the patched uint32 value from
`num_plays`; and patching with `v1` followed by patching with `v2`
produces exactly the bytes of patching the original once with `v2`. -/
theorem C1_setAPNGLoopCount_roundtrip (data : List Nat) (pos v v1 v2 : Nat)
    (hf : findAcTL data (data.length + 1) 8 = some (some pos))
    (hL : 8 ≤ readU32BE data pos)
    (hfit : pos + 12 + readU32BE data pos ≤ data.length)
    (hv : v < 4294967296) :
    (∃ out, setAPNGLoopCount data v = some out ∧
      findAcTL out (out.length + 1) 8 = some (some pos) ∧
      readU32BE out (pos + 12) = v) ∧
    (setAPNGLoopCount data v1).bind (fun d => setAPNGLoopCount d v2) =
      setAPNGLoopCount data v2 := by
  have hlen1 : ∀ lc, (patchN data pos (readU32BE data pos) lc).length = data.length :=
    fun lc => length_patchN data pos (readU32BE data pos) lc
  have hagree : ∀ lc i, i < pos + 12 →
      getByte (patchN data pos (readU32BE data pos) lc) i = getByte data i := by
    intro lc i hi
    exact getByte_patchN_outside data pos _ lc i (by omega) (by omega)
  have hfind : ∀ lc,
      findAcTL (patchN data pos (readU32BE data pos) lc) (data.length + 1) 8 = some (some pos) :=
    fun lc => findAcTL_agree data _ pos (hlen1 lc) (hagree lc) _ 8 hf
  constructor
  · refine ⟨patchN data pos (readU32BE data pos) v, setAPNGLoopCount_run data v pos hf, ?_, ?_⟩
    · rw [hlen1 v]
      exact hfind v
    · have hr : readU32BE (patchN data pos (readU32BE data pos) v) (pos + 12)
          = readU32BE (writeU32BE data (pos + 12) v) (pos + 12) := by
        unfold patchN
        apply readU32BE_congr
        · exact getByte_writeU32BE_outside _ _ _ _ (by omega)
        · exact getByte_writeU32BE_outside _ _ _ _ (by omega)
        · exact getByte_writeU32BE_outside _ _ _ _ (by omega)
        · exact getByte_writeU32BE_outside _ _ _ _ (by omega)
      rw [hr, readU32BE_writeU32BE_self _ _ _ (by omega), Nat.mod_eq_of_lt hv]
  · rw [setAPNGLoopCount_run data v1 pos hf]
    show setAPNGLoopCount (patchN data pos (readU32BE data pos) v1) v2 = _
    have hfind1 : findAcTL (patchN data pos (readU32BE data pos) v1)
        ((patchN data pos (readU32BE data pos) v1).length + 1) 8 = some (some pos) := by
      rw [hlen1 v1]
      exact hfind v1
    rw [setAPNGLoopCount_run _ v2 pos hfind1]
    have hLd1 : readU32BE (patchN data pos (readU32BE data pos) v1) pos = readU32BE data pos := by
      apply readU32BE_congr
      · exact hagree v1 pos (by omega)
      · exact hagree v1 (pos + 1) (by omega)
      · exact hagree v1 (pos + 2) (by omega)
      · exact hagree v1 (pos + 3) (by omega)
    rw [hLd1, patchN_patchN data pos _ v1 v2 hL, setAPNGLoopCount_run data v2 pos hf]

/-- Closed instantiation of `C1_setAPNGLoopCount_roundtrip` on a
concrete 28-byte buffer (PNG signature followed by an acTL chunk):
patching to 3 and then to 7 equals patching once to 7. -/
theorem C1_setAPNGLoopCount_roundtrip_witness :
    (setAPNGLoopCount
      [137, 80, 78, 71, 13, 10, 26, 10,
       0, 0, 0, 8, 97, 99, 84, 76,
       0, 0, 0, 1, 0, 0, 0, 0, 0, 0, 0, 0] 3).bind
      (fun d => setAPNGLoopCount d 7) =
    setAPNGLoopCount
      [137, 80, 78, 71, 13, 10, 26, 10,
       0, 0, 0, 8, 97, 99, 84, 76,
       0, 0, 0, 1, 0, 0, 0, 0, 0, 0, 0, 0] 7 :=
  (C1_setAPNGLoopCount_roundtrip
    [137, 80, 78, 71, 13, 10, 26, 10,
     0, 0, 0, 8, 97, 99, 84, 76,
     0, 0, 0, 1, 0, 0, 0, 0, 0, 0, 0, 0] 8 5 3 7
    (by decide) (by decide) (by decide) (by decide)).2

/-- C5: on a buffer whose chunk walk certifies an acTL chunk at `pos`,
the patch is local: the output has the same length, every byte outside
the 4 `num_plays` bytes (payload bytes 4..8, i.e. absolute offsets
`pos+12..pos+15`) and the 4 trailing CRC bytes of that chunk is
unchanged, `num_plays` holds the big-endian uint32 loop count, and the
CRC field holds the CRC-32 of chunk type plus payload (the bytes from
`pos+4` up to the CRC field, excluding the length prefix and the old
CRC); a buffer whose walk finds no acTL chunk is returned unchanged. -/
theorem C5_setAPNGLoopCount_localized (data : List Nat) (pos v : Nat)
    (hb : IsBytes data)
    (hf : findAcTL data (data.length + 1) 8 = some (some pos))
    (hL : 8 ≤ readU32BE data pos)
    (hfit : pos + 12 + readU32BE data pos ≤ data.length) :
    (∃ out, setAPNGLoopCount data v = some out ∧
      out.length = data.length ∧
      (∀ j, ¬(pos + 12 ≤ j ∧ j < pos + 16) →
        ¬(pos + 8 + readU32BE data pos ≤ j ∧ j < pos + 12 + readU32BE data pos) →
        getByte out j = getByte data j) ∧
      readU32BE out (pos + 12) = v % 4294967296 ∧
      readU32BE out (pos + 8 + readU32BE data pos) =
        calculateCRC ((out.take (pos + 8 + readU32BE data pos)).drop (pos + 4))) ∧
    (∀ d : List Nat, ∀ lc : Nat, findAcTL d (d.length + 1) 8 = some none →
      setAPNGLoopCount d lc = some d) := by
  constructor
  · refine ⟨patchN data pos (readU32BE data pos) v, setAPNGLoopCount_run data v pos hf,
      length_patchN data pos (readU32BE data pos) v, ?_, ?_, ?_⟩
    · intro j h1 h2
      exact getByte_patchN_outside data pos _ v j h1 h2
    · have hr : readU32BE (patchN data pos (readU32BE data pos) v) (pos + 12)
          = readU32BE (writeU32BE data (pos + 12) v) (pos + 12) := by
        unfold patchN
        apply readU32BE_congr
        · exact getByte_writeU32BE_outside _ _ _ _ (by omega)
        · exact getByte_writeU32BE_outside _ _ _ _ (by omega)
        · exact getByte_writeU32BE_outside _ _ _ _ (by omega)
        · exact getByte_writeU32BE_outside _ _ _ _ (by omega)
      rw [hr, readU32BE_writeU32BE_self _ _ _ (by omega)]
    · have hcrc_lt : calculateCRC
          (((writeU32BE data (pos + 12) v).take (pos + 8 + readU32BE data pos)).drop (pos + 4))
          < 2 ^ 32 :=
        calculateCRC_lt _ (IsBytes_take_drop _ _ _ (IsBytes_writeU32BE data _ _ hb))
      have htake : (patchN data pos (readU32BE data pos) v).take (pos + 8 + readU32BE data pos)
          = (writeU32BE data (pos + 12) v).take (pos + 8 + readU32BE data pos) := by
        unfold patchN
        exact take_writeU32BE _ _ _ _ (Nat.le_refl _)
      rw [htake]
      unfold patchN
      rw [readU32BE_writeU32BE_self _ _ _ (by rw [length_writeU32BE]; omega)]
      exact Nat.mod_eq_of_lt (by exact_mod_cast hcrc_lt)
  · intro d lc hnone
    exact setAPNGLoopCount_miss d lc hnone

/-- Closed instantiation of `C5_setAPNGLoopCount_localized`: its
no-acTL branch applied to a concrete 20-byte static-PNG-like buffer
(signature plus one IEND-typed chunk) returns the buffer unchanged. -/
theorem C5_setAPNGLoopCount_localized_witness :
    setAPNGLoopCount [137, 80, 78, 71, 13, 10, 26, 10,
      0, 0, 0, 0, 73, 69, 78, 68, 0, 0, 0, 0] 5 =
    some [137, 80, 78, 71, 13, 10, 26, 10,
      0, 0, 0, 0, 73, 69, 78, 68, 0, 0, 0, 0] :=
  (C5_setAPNGLoopCount_localized
    [137, 80, 78, 71, 13, 10, 26, 10,
     0, 0, 0, 8, 97, 99, 84, 76,
     0, 0, 0, 1, 0, 0, 0, 0, 0, 0, 0, 0] 8 5
    (by decide) (by decide) (by decide) (by decide)).2
    [137, 80, 78, 71, 13, 10, 26, 10,
     0, 0, 0, 0, 73, 69, 78, 68, 0, 0, 0, 0] 5 (by decide)

/-! ## WebP container assembly (`webp-assembler.ts`, src/unnamed/part_005) -/

/-- `uint24` (lines 1-3): `[n & 0xff, (n >> 8) & 0xff, (n >> 16) & 0xff]`.
The app passes non-negative values below 2^31, where JavaScript's
signed shifts agree with `Nat` division. -/
def uint24 (n : Nat) : List Nat := [n % 256, n / 256 % 256, n / 65536 % 256]

/-- `uint32` (lines 5-7), little-endian byte order. -/
def uint32le (n : Nat) : List Nat :=
  [n % 256, n / 256 % 256, n / 65536 % 256, n / 16777216 % 256]

/-- Little-endian 32-bit read
`bytes[o] | (bytes[o+1] << 8) | (bytes[o+2] << 16) | (bytes[o+3] << 24)`
(line 17), before the signed reinterpretation. -/
def readU32LEI (data : List Nat) (i : Int) : Nat :=
  getByteI data i + getByteI data (i + 1) * 256 + getByteI data (i + 2) * 65536 +
    getByteI data (i + 3) * 16777216

def readU32LE (data : List Nat) (i : Nat) : Nat :=
  getByte data i + getByte data (i + 1) * 256 + getByte data (i + 2) * 65536 +
    getByte data (i + 3) * 16777216

theorem readU32LEI_coe (data : List Nat) (n : Nat) :
    readU32LEI data (n : Int) = readU32LE data n := by
  unfold readU32LEI readU32LE
  rw [getByteI_eq data _ n rfl, getByteI_eq data _ (n + 1) (by omega),
    getByteI_eq data _ (n + 2) (by omega), getByteI_eq data _ (n + 3) (by omega)]

/-- The loop of `parseWebP` (lines 9-28).  The declared chunk size is
read with `|`/`<<`, i.e. as a *signed* int32; a negative declared size
passes the remaining-bytes check and can keep the cursor from
advancing, so the JavaScript loop need not terminate.  `fuel` bounds
the iterations (`none` = bound exhausted).  The produced `type` is the
`String.fromCharCode` image of the 4 header bytes (char codes mod
2^16). -/
def parseWebPGo (bytes : List Nat) : Nat → Int → Option (List (List Nat × List Nat))
  | 0, _ => none
  | fuel + 1, offset =>
    if offset < (bytes.length : Int) then
      if offset + 4 > (bytes.length : Int) then some []
      else
        if offset + 8 + int32 (readU32LEI bytes (offset + 4)) > (bytes.length : Int) then some []
        else
          match parseWebPGo bytes fuel
            (offset + 8 + int32 (readU32LEI bytes (offset + 4)) +
              (if int32 (readU32LEI bytes (offset + 4)) % 2 ≠ 0 then 1 else 0)) with
          | none => none
          | some rest =>
            some (((jsSlice bytes offset (offset + 4)).map (fun b => b % 65536),
              jsSlice bytes (offset + 8)
                (offset + 8 + int32 (readU32LEI bytes (offset + 4)))) :: rest)
    else some []

/-- `parseWebP` (lines 9-28): scan starts at offset 12, skipping the
RIFF header.  With non-negative declared sizes each iteration advances
the cursor by at least 8, so `bytes.length + 1` iterations of fuel are
never exhausted. -/
def parseWebP (bytes : List Nat) : Option (List (List Nat × List Nat)) :=
  parseWebPGo bytes (bytes.length + 1) 12

/-- Certifier for the `parseWebP` walk: `true` when every chunk size
field met along the scan is a non-negative int32 (and the walk ends),
which is the regime in which the JavaScript loop terminates. -/
def webpSizesOK (bytes : List Nat) : Nat → Nat → Bool
  | 0, _ => false
  | fuel + 1, offset =>
    if offset < bytes.length then
      if bytes.length < offset + 4 then true
      else
        if readU32LE bytes (offset + 4) < 2147483648 then
          if bytes.length < offset + 8 + readU32LE bytes (offset + 4) then true
          else webpSizesOK bytes fuel
            (offset + 8 + readU32LE bytes (offset + 4) + readU32LE bytes (offset + 4) % 2)
        else false
    else true

/-- C10 counterexample: a 20-byte buffer whose single chunk declares
size `0xFFFFFFF8` (int32 `-8`).  The size check
`offset + 8 + size > length` does not fire, the cursor does not
advance, and `parseWebP` never terminates (the fuelled model exhausts
its bound), refuting the claim that `parseWebP` terminates on every
input. -/
theorem C10_parseWebP_cex :
    parseWebP [0, 0, 0, 0, 0, 0, 0, 0, 0, 0, 0, 0,
      65, 65, 65, 65, 248, 255, 255, 255] = none := by
  have hstuck : ∀ fuel, parseWebPGo
      [0, 0, 0, 0, 0, 0, 0, 0, 0, 0, 0, 0,
       65, 65, 65, 65, 248, 255, 255, 255] fuel 12 = none := by
    intro fuel
    induction fuel with
    | zero => rfl
    | succ f ih =>
      show parseWebPGo _ (f + 1) 12 = none
      rw [show parseWebPGo
          [0, 0, 0, 0, 0, 0, 0, 0, 0, 0, 0, 0,
           65, 65, 65, 65, 248, 255, 255, 255] (f + 1) 12 =
          match parseWebPGo
            [0, 0, 0, 0, 0, 0, 0, 0, 0, 0, 0, 0,
             65, 65, 65, 65, 248, 255, 255, 255] f 12 with
          | none => none
          | some rest => some (([65, 65, 65, 65], []) :: rest) from rfl]
      rw [ih]
  exact hstuck _

/-- A certified walk makes `parseWebPGo` return, and every chunk it
returns was cut from inside the buffer. -/
theorem parseWebPGo_of_sizesOK (bytes : List Nat) :
    ∀ fuel o, webpSizesOK bytes fuel o = true →
      ∃ chunks, parseWebPGo bytes fuel (o : Int) = some chunks ∧
        ∀ c ∈ chunks, ∃ q, q + 8 + c.2.length ≤ bytes.length ∧
          c.1 = ((bytes.take (q + 4)).drop q).map (fun b => b % 65536) ∧
          c.2 = (bytes.take (q + 8 + c.2.length)).drop (q + 8) := by
  intro fuel
  induction fuel with
  | zero =>
    intro o hOK
    simp [webpSizesOK] at hOK
  | succ f ih =>
    intro o hOK
    simp only [webpSizesOK] at hOK
    simp only [parseWebPGo]
    by_cases hg : o < bytes.length
    · rw [if_pos hg] at hOK
      rw [if_pos (by omega : ((o : Nat) : Int) < (bytes.length : Int))]
      by_cases h4 : bytes.length < o + 4
      · rw [if_pos (by omega : ((o : Nat) : Int) + 4 > (bytes.length : Int))]
        exact ⟨[], rfl, by simp⟩
      · rw [if_neg h4] at hOK
        rw [if_neg (by omega : ¬(((o : Nat) : Int) + 4 > (bytes.length : Int)))]
        by_cases hs : readU32LE bytes (o + 4) < 2147483648
        · rw [if_pos hs] at hOK
          rw [show ((o : Nat) : Int) + 4 = ((o + 4 : Nat) : Int) by omega,
            readU32LEI_coe, int32_coe _ hs]
          by_cases hrem : bytes.length < o + 8 + readU32LE bytes (o + 4)
          · rw [if_pos (by omega :
              ((o : Nat) : Int) + 8 + ((readU32LE bytes (o + 4) : Nat) : Int) >
                (bytes.length : Int))]
            exact ⟨[], rfl, by simp⟩
          · rw [if_neg hrem] at hOK
            rw [if_neg (by omega :
              ¬(((o : Nat) : Int) + 8 + ((readU32LE bytes (o + 4) : Nat) : Int) >
                (bytes.length : Int)))]
            have hoff : ((o : Nat) : Int) + 8 + ((readU32LE bytes (o + 4) : Nat) : Int) +
                (if ((readU32LE bytes (o + 4) : Nat) : Int) % 2 ≠ 0 then 1 else 0) =
                ((o + 8 + readU32LE bytes (o + 4) + readU32LE bytes (o + 4) % 2 : Nat) : Int) := by
              by_cases hp : readU32LE bytes (o + 4) % 2 = 0
              · rw [if_neg (by omega)]
                omega
              · rw [if_pos (by omega)]
                omega
            rw [hoff]
            obtain ⟨rest, hrest, hprops⟩ := ih _ hOK
            rw [hrest]
            refine ⟨_, rfl, ?_⟩
            intro c hc
            have e2 : ((o : Nat) : Int) + 8 + ((readU32LE bytes (o + 4) : Nat) : Int) =
                ((o + 8 + readU32LE bytes (o + 4) : Nat) : Int) := by omega
            have e1 : ((o : Nat) : Int) + 8 = ((o + 8 : Nat) : Int) := by omega
            have e3 : ((o : Nat) : Int) + 4 = ((o + 4 : Nat) : Int) := by omega
            have hdata : jsSlice bytes (((o : Nat) : Int) + 8)
                (((o : Nat) : Int) + 8 + ((readU32LE bytes (o + 4) : Nat) : Int)) =
                (bytes.take (o + 8 + readU32LE bytes (o + 4))).drop (o + 8) := by
              rw [e2, e1, jsSlice_coe]
            have htype : jsSlice bytes ((o : Nat) : Int) ((o + 4 : Nat) : Int) =
                (bytes.take (o + 4)).drop o := by
              rw [jsSlice_coe]
            have hdlen : ((bytes.take (o + 8 + readU32LE bytes (o + 4))).drop (o + 8)).length =
                readU32LE bytes (o + 4) := by
              rw [List.length_drop, List.length_take]
              omega
            rcases List.mem_cons.mp hc with hc | hc
            · subst hc
              refine ⟨o, ?_, ?_, ?_⟩
              · dsimp only
                rw [hdata, hdlen]
                omega
              · dsimp only
                rw [htype]
              · dsimp only
                rw [hdata, hdlen]
            · exact hprops c hc
        · rw [if_neg hs] at hOK
          exact absurd hOK (by simp)
    · rw [if_neg hg] at hOK
      rw [if_neg (by omega : ¬(((o : Nat) : Int) < (bytes.length : Int)))]
      exact ⟨[], rfl, by simp⟩

/-- C10 (amended): when every declared chunk size met along the scan is
a non-negative int32 fitting the remaining buffer (certified by
`webpSizesOK`, which holds for every well-formed single-frame blob),
`parseWebP` terminates with a result, and every returned chunk was cut
entirely from inside the buffer: its 4 type bytes come from
`bytes[q..q+4)` and its payload is exactly `bytes[q+8..q+8+size)` with
`q + 8 + size ≤ length`.  (A malformed buffer with a negative declared
size can keep the cursor from advancing, so the original claim's
unconditional termination fails — see the counterexample.) -/
theorem C10_parseWebP_inbounds (bytes : List Nat)
    (hok : webpSizesOK bytes (bytes.length + 1) 12 = true) :
    parseWebP bytes ≠ none ∧
    ∀ chunks, parseWebP bytes = some chunks →
      ∀ c ∈ chunks, ∃ q, q + 8 + c.2.length ≤ bytes.length ∧
        c.1 = ((bytes.take (q + 4)).drop q).map (fun b => b % 65536) ∧
        c.2 = (bytes.take (q + 8 + c.2.length)).drop (q + 8) := by
  obtain ⟨chunks, hch, hprops⟩ := parseWebPGo_of_sizesOK bytes (bytes.length + 1) 12 hok
  have hch12 : parseWebP bytes = some chunks := by
    unfold parseWebP
    rw [show (12 : Int) = ((12 : Nat) : Int) from by norm_num]
    exact hch
  constructor
  · rw [hch12]
    simp
  · intro chunks2 hch2
    rw [hch12] at hch2
    obtain rfl : chunks = chunks2 := Option.some.inj hch2
    exact hprops

/-- Closed instantiation of `C10_parseWebP_inbounds` on a concrete
22-byte single-chunk WebP-like buffer: parsing terminates with a
result. -/
theorem C10_parseWebP_inbounds_witness :
    parseWebP [0, 0, 0, 0, 0, 0, 0, 0, 0, 0, 0, 0,
      86, 80, 56, 32, 2, 0, 0, 0, 7, 7] ≠ none :=
  (C10_parseWebP_inbounds
    [0, 0, 0, 0, 0, 0, 0, 0, 0, 0, 0, 0,
     86, 80, 56, 32, 2, 0, 0, 0, 7, 7] (by decide)).1

/-- The chunk types retained by `assembleWebP` (line 51):
`['VP8 ', 'VP8L', 'ALPH']` as character-code lists. -/
def validTypes : List (List Nat) := [[86, 80, 56, 32], [86, 80, 56, 76], [65, 76, 80, 72]]

/-- One retained codec chunk as emitted into the ANMF body
(lines 88-94): type, little-endian length, payload, zero pad byte when
the payload length is odd.  The retained types are the three ASCII
tags above, for which `TextEncoder().encode` yields exactly the
character codes. -/
def chunkBytes (c : List Nat × List Nat) : List Nat :=
  c.1 ++ uint32le c.2.length ++ c.2 ++ (if c.2.length % 2 ≠ 0 then [0] else [])

/-- `payloadSize` (lines 53-56): `8 + data.length + (data.length % 2)`
summed over the retained chunks. -/
def chunkPayloadSize (cs : List (List Nat × List Nat)) : Nat :=
  (cs.map (fun c => 8 + c.2.length + c.2.length % 2)).sum

/-- One ANMF chunk (lines 58-94): tag, chunk size `16 + payloadSize`,
the 16-byte header (x = y = 0, 24-bit `width-1`, `height-1`,
24-bit duration, flags byte 0x02), then the retained codec chunks. -/
def anmfChunk (w h : Nat) (cs : List (List Nat × List Nat)) (duration : Nat) : List Nat :=
  [65, 78, 77, 70] ++
    uint32le (16 + chunkPayloadSize (cs.filter (fun c => validTypes.contains c.1))) ++
    ([0, 0, 0, 0, 0, 0] ++ uint24 (w - 1) ++ uint24 (h - 1) ++ uint24 duration ++ [2]) ++
    ((cs.filter (fun c => validTypes.contains c.1)).map chunkBytes).flatten

/-- The VP8X chunk (lines 33-45): flags byte 0x12 (animation+alpha),
three reserved zero bytes, 24-bit `width-1` and `height-1`.  The app
always passes bitmap dimensions `≥ 1`, where JavaScript's `width - 1`
agrees with `Nat` subtraction. -/
def vp8xChunk (w h : Nat) : List Nat :=
  [86, 80, 56, 88] ++ uint32le 10 ++ ([18, 0, 0, 0] ++ uint24 (w - 1) ++ uint24 (h - 1))

/-- The ANIM chunk (lines 47-54): 6-byte payload, background color
`[255, 255, 255, 0]` and a hard-coded `[0, 0]` loop count.  Note the
source function takes no loop-count parameter at all, although its
caller in App.tsx line 667 passes one. -/
def animChunk : List Nat :=
  [65, 78, 73, 77] ++ uint32le 6 ++ [255, 255, 255, 0, 0, 0]

/-- The sequential `for (const frame of frames)` parse of every frame
blob (lines 58-60): fails (diverges) if any single parse does. -/
def parseFrames : List (List Nat × Nat) → Option (List (List (List Nat × List Nat) × Nat))
  | [] => some []
  | f :: fs =>
    match parseWebP f.1, parseFrames fs with
    | some cs, some rest => some ((cs, f.2) :: rest)
    | _, _ => none

/-- Everything after the outer RIFF header, in emission order:
VP8X, ANIM, then one ANMF chunk per frame (lines 33-94). -/
def assembleParts (w h : Nat) (pf : List (List (List Nat × List Nat) × Nat)) : List Nat :=
  vp8xChunk w h ++ animChunk ++ (pf.map (fun p => anmfChunk w h p.1 p.2)).flatten

/-- `assembleWebP` (webp-assembler lines 30-107): RIFF tag, total size
minus 8 little-endian, WEBP tag, then the parts.  The source signature
takes only `(frames, width, height)` — there is no loop-count
parameter. -/
def assembleWebP (frames : List (List Nat × Nat)) (width height : Nat) : Option (List Nat) :=
  match parseFrames frames with
  | none => none
  | some pf =>
    some ([82, 73, 70, 70] ++ uint32le (4 + (assembleParts width height pf).length) ++
      [87, 69, 66, 80] ++ assembleParts width height pf)

theorem getByte_append_left (l1 l2 : List Nat) (j : Nat) (h : j < l1.length) :
    getByte (l1 ++ l2) j = getByte l1 j := by
  unfold getByte
  rw [List.getD_eq_getElem?_getD, List.getD_eq_getElem?_getD, List.getElem?_append, if_pos h]

theorem getByte_append_right (l1 l2 : List Nat) (j : Nat) (h : l1.length ≤ j) :
    getByte (l1 ++ l2) j = getByte l2 (j - l1.length) := by
  unfold getByte
  rw [List.getD_eq_getElem?_getD, List.getD_eq_getElem?_getD, List.getElem?_append,
    if_neg (by omega)]

theorem getByte_take_drop (out : List Nat) (T D i : Nat) (h : D + i < T) :
    getByte ((out.take T).drop D) i = getByte out (D + i) := by
  unfold getByte
  rw [List.getD_eq_getElem?_getD, List.getD_eq_getElem?_getD, List.getElem?_drop,
    List.getElem?_take, if_pos h]

/-- C2 (code bug): whatever frames, dimensions — and, in the real
caller, whatever loop count the UI selected — the assembled container's
ANIM chunk (bytes 30..44 of the output) always carries the hard-coded
payload `[255,255,255,0, 0,0]`: its 2-byte little-endian loop-count
field (output bytes 42 and 43) is always `0` (infinite), never the
caller-supplied value.  `assembleWebP` does not even accept the fourth
argument App.tsx passes. -/
theorem C2_assembleWebP_loop_always_zero (frames : List (List Nat × Nat)) (w h : Nat)
    (out : List Nat) (hout : assembleWebP frames w h = some out) :
    (out.take 44).drop 30 = [65, 78, 73, 77, 6, 0, 0, 0, 255, 255, 255, 0, 0, 0] ∧
    getByte out 42 = 0 ∧ getByte out 43 = 0 := by
  unfold assembleWebP at hout
  cases hpf : parseFrames frames with
  | none =>
    rw [hpf] at hout
    exact absurd hout (by simp)
  | some pf =>
    rw [hpf] at hout
    obtain rfl := Option.some.inj hout
    have hsplit : [82, 73, 70, 70] ++ uint32le (4 + (assembleParts w h pf).length) ++
        [87, 69, 66, 80] ++ assembleParts w h pf =
        (([82, 73, 70, 70] ++ uint32le (4 + (assembleParts w h pf).length) ++
            [87, 69, 66, 80] ++ vp8xChunk w h) ++ animChunk) ++
          (pf.map (fun p => anmfChunk w h p.1 p.2)).flatten := by
      unfold assembleParts
      simp [List.append_assoc]
    have hanim : (([82, 73, 70, 70] ++ uint32le (4 + (assembleParts w h pf).length) ++
        [87, 69, 66, 80] ++ assembleParts w h pf).take 44).drop 30 =
        [65, 78, 73, 77, 6, 0, 0, 0, 255, 255, 255, 0, 0, 0] := by
      rw [hsplit]
      rw [List.take_left' (by simp [uint32le, vp8xChunk, animChunk, uint24])]
      rw [List.drop_left' (by simp [uint32le, vp8xChunk, uint24])]
      rfl
    refine ⟨hanim, ?_, ?_⟩
    · have h42 := getByte_take_drop
        ([82, 73, 70, 70] ++ uint32le (4 + (assembleParts w h pf).length) ++
          [87, 69, 66, 80] ++ assembleParts w h pf) 44 30 12 (by omega)
      rw [hanim] at h42
      rw [← show (30 + 12 : Nat) = 42 from rfl, ← h42]
      rfl
    · have h43 := getByte_take_drop
        ([82, 73, 70, 70] ++ uint32le (4 + (assembleParts w h pf).length) ++
          [87, 69, 66, 80] ++ assembleParts w h pf) 44 30 13 (by omega)
      rw [hanim] at h43
      rw [← show (30 + 13 : Nat) = 43 from rfl, ← h43]
      rfl

/-- Closed instantiation of `C2_assembleWebP_loop_always_zero` on the
assembler's concrete output for an empty frame list and a 1x1 canvas. -/
theorem C2_assembleWebP_loop_always_zero_witness :
    (([82, 73, 70, 70, 36, 0, 0, 0, 87, 69, 66, 80, 86, 80, 56, 88, 10, 0, 0, 0,
       18, 0, 0, 0, 0, 0, 0, 0, 0, 0, 65, 78, 73, 77, 6, 0, 0, 0, 255, 255, 255, 0,
       0, 0] : List Nat).take 44).drop 30 =
      [65, 78, 73, 77, 6, 0, 0, 0, 255, 255, 255, 0, 0, 0] ∧
    getByte [82, 73, 70, 70, 36, 0, 0, 0, 87, 69, 66, 80, 86, 80, 56, 88, 10, 0, 0, 0,
       18, 0, 0, 0, 0, 0, 0, 0, 0, 0, 65, 78, 73, 77, 6, 0, 0, 0, 255, 255, 255, 0,
       0, 0] 42 = 0 ∧
    getByte [82, 73, 70, 70, 36, 0, 0, 0, 87, 69, 66, 80, 86, 80, 56, 88, 10, 0, 0, 0,
       18, 0, 0, 0, 0, 0, 0, 0, 0, 0, 65, 78, 73, 77, 6, 0, 0, 0, 255, 255, 255, 0,
       0, 0] 43 = 0 :=
  C2_assembleWebP_loop_always_zero [] 1 1 _ (by decide)

/-- 24-bit little-endian decode, as the claim specifies for reading a
duration back out of an ANMF header. -/
def readU24 (data : List Nat) (i : Nat) : Nat :=
  getByte data i + getByte data (i + 1) * 256 + getByte data (i + 2) * 65536

theorem readU24_prefix_uint24 (pre rest : List Nat) (d : Nat)
    (hpre : pre.length = 20) (hd : d < 16777216) :
    readU24 (pre ++ (uint24 d ++ rest)) 20 = d := by
  unfold readU24
  rw [getByte_append_right pre (uint24 d ++ rest) 20 (by omega),
    getByte_append_right pre (uint24 d ++ rest) (20 + 1) (by omega),
    getByte_append_right pre (uint24 d ++ rest) (20 + 2) (by omega), hpre]
  have z0 : getByte (uint24 d ++ rest) (20 - 20) = d % 256 := rfl
  have z1 : getByte (uint24 d ++ rest) (20 + 1 - 20) = d / 256 % 256 := rfl
  have z2 : getByte (uint24 d ++ rest) (20 + 2 - 20) = d / 65536 % 256 := rfl
  rw [z0, z1, z2]
  have d1 : d / 65536 = d / 256 / 256 := by rw [Nat.div_div_eq_div_mul]
  omega

theorem readU24_anmfChunk (w h d : Nat) (cs : List (List Nat × List Nat))
    (hd : d < 16777216) :
    readU24 (anmfChunk w h cs d) 20 = d := by
  have hsp : anmfChunk w h cs d =
      ([65, 78, 77, 70] ++
        uint32le (16 + chunkPayloadSize (cs.filter (fun c => validTypes.contains c.1))) ++
        ([0, 0, 0, 0, 0, 0] ++ uint24 (w - 1) ++ uint24 (h - 1))) ++
      (uint24 d ++
        ([2] ++ ((cs.filter (fun c => validTypes.contains c.1)).map chunkBytes).flatten)) := by
    unfold anmfChunk
    simp [List.append_assoc]
  rw [hsp]
  exact readU24_prefix_uint24 _ _ d (by simp [uint32le, uint24]) hd

theorem parseFrames_spec : ∀ (frames : List (List Nat × Nat)) pf,
    parseFrames frames = some pf →
    pf.length = frames.length ∧
    ∀ i, i < frames.length → (pf.getD i ([], 0)).2 = (frames.getD i ([], 0)).2 := by
  intro frames
  induction frames with
  | nil =>
    intro pf h
    obtain rfl : ([] : List (List (List Nat × List Nat) × Nat)) = pf := Option.some.inj h
    exact ⟨rfl, fun i hi => absurd hi (by simp)⟩
  | cons f fs ih =>
    intro pf h
    unfold parseFrames at h
    cases hp : parseWebP f.1 with
    | none =>
      rw [hp] at h
      exact absurd h (by simp)
    | some cs =>
      rw [hp] at h
      cases hr : parseFrames fs with
      | none =>
        rw [hr] at h
        exact absurd h (by simp)
      | some rest =>
        rw [hr] at h
        obtain rfl : (cs, f.2) :: rest = pf := Option.some.inj h
        obtain ⟨hl, hi⟩ := ih rest hr
        refine ⟨by simp [hl], ?_⟩
        intro i hilt
        cases i with
        | zero => rfl
        | succ n =>
          simp only [List.getD_cons_succ]
          exact hi n (by simpa using hilt)

/-- C9: the assembled container's outer RIFF length field equals the
total output length minus 8; after the 44-byte fixed prefix (RIFF
header, VP8X, ANIM) the output is exactly the concatenation of one
ANMF chunk per input frame in input order, each starting with the
`ANMF` tag and carrying its frame's duration, recoverable by 24-bit
little-endian decode of header bytes 12..15 (chunk bytes 20..23). -/
theorem C9_assembleWebP_container (frames : List (List Nat × Nat)) (w h : Nat) (out : List Nat)
    (hout : assembleWebP frames w h = some out)
    (hsz : out.length < 4294967304)
    (hdur : ∀ f ∈ frames, f.2 < 16777216) :
    readU32LE out 4 = out.length - 8 ∧
    ∃ chunksL : List (List Nat),
      out.drop 44 = chunksL.flatten ∧
      chunksL.length = frames.length ∧
      ∀ i, i < frames.length →
        (chunksL.getD i []).take 4 = [65, 78, 77, 70] ∧
        readU24 (chunksL.getD i []) 20 = (frames.getD i ([], 0)).2 := by
  unfold assembleWebP at hout
  cases hpf : parseFrames frames with
  | none =>
    rw [hpf] at hout
    exact absurd hout (by simp)
  | some pf =>
    rw [hpf] at hout
    obtain rfl := Option.some.inj hout
    obtain ⟨hlen, hdur2⟩ := parseFrames_spec frames pf hpf
    have hL : ([82, 73, 70, 70] ++ uint32le (4 + (assembleParts w h pf).length) ++
        [87, 69, 66, 80] ++ assembleParts w h pf).length =
        12 + (assembleParts w h pf).length := by
      simp [uint32le]
      omega
    constructor
    · have b0 : getByte ([82, 73, 70, 70] ++ uint32le (4 + (assembleParts w h pf).length) ++
          [87, 69, 66, 80] ++ assembleParts w h pf) 4 =
          (4 + (assembleParts w h pf).length) % 256 := rfl
      have b1 : getByte ([82, 73, 70, 70] ++ uint32le (4 + (assembleParts w h pf).length) ++
          [87, 69, 66, 80] ++ assembleParts w h pf) (4 + 1) =
          (4 + (assembleParts w h pf).length) / 256 % 256 := rfl
      have b2 : getByte ([82, 73, 70, 70] ++ uint32le (4 + (assembleParts w h pf).length) ++
          [87, 69, 66, 80] ++ assembleParts w h pf) (4 + 2) =
          (4 + (assembleParts w h pf).length) / 65536 % 256 := rfl
      have b3 : getByte ([82, 73, 70, 70] ++ uint32le (4 + (assembleParts w h pf).length) ++
          [87, 69, 66, 80] ++ assembleParts w h pf) (4 + 3) =
          (4 + (assembleParts w h pf).length) / 16777216 % 256 := rfl
      unfold readU32LE
      rw [b0, b1, b2, b3, hL]
      rw [hL] at hsz
      have d1 : (4 + (assembleParts w h pf).length) / 16777216 =
          (4 + (assembleParts w h pf).length) / 65536 / 256 := by
        rw [Nat.div_div_eq_div_mul]
      have d2 : (4 + (assembleParts w h pf).length) / 65536 =
          (4 + (assembleParts w h pf).length) / 256 / 256 := by
        rw [Nat.div_div_eq_div_mul]
      omega
    · refine ⟨pf.map (fun p => anmfChunk w h p.1 p.2), ?_, by simp [hlen], ?_⟩
      · have hsplit : [82, 73, 70, 70] ++ uint32le (4 + (assembleParts w h pf).length) ++
            [87, 69, 66, 80] ++ assembleParts w h pf =
            (([82, 73, 70, 70] ++ uint32le (4 + (assembleParts w h pf).length) ++
                [87, 69, 66, 80] ++ vp8xChunk w h) ++ animChunk) ++
              (pf.map (fun p => anmfChunk w h p.1 p.2)).flatten := by
          unfold assembleParts
          simp [List.append_assoc]
        rw [hsplit]
        rw [List.drop_left' (by simp [uint32le, vp8xChunk, animChunk, uint24])]
      · intro i hi
        have hpfi : i < pf.length := by omega
        have hmap : (pf.map (fun p => anmfChunk w h p.1 p.2)).getD i [] =
            anmfChunk w h (pf.getD i ([], 0)).1 (pf.getD i ([], 0)).2 := by
          rw [List.getD_eq_getElem?_getD, List.getElem?_map, List.getElem?_eq_getElem hpfi,
            List.getD_eq_getElem?_getD, List.getElem?_eq_getElem hpfi]
          rfl
        rw [hmap]
        have hdlt : (pf.getD i ([], 0)).2 < 16777216 := by
          rw [hdur2 i hi]
          have hfi : i < frames.length := hi
          have : frames.getD i ([], 0) ∈ frames := by
            rw [List.getD_eq_getElem frames ([], 0) hfi]
            exact List.getElem_mem hfi
          exact hdur _ this
        refine ⟨rfl, ?_⟩
        rw [readU24_anmfChunk _ _ _ _ hdlt, hdur2 i hi]

/-- Closed instantiation of `C9_assembleWebP_container` on the
assembler's concrete 68-byte output for one empty-payload frame of
duration 100 on a 1x1 canvas: the RIFF size field reads back 60. -/
theorem C9_assembleWebP_container_witness :
    readU32LE [82, 73, 70, 70, 60, 0, 0, 0, 87, 69, 66, 80, 86, 80, 56, 88, 10, 0, 0, 0,
      18, 0, 0, 0, 0, 0, 0, 0, 0, 0, 65, 78, 73, 77, 6, 0, 0, 0, 255, 255, 255, 0, 0, 0,
      65, 78, 77, 70, 16, 0, 0, 0, 0, 0, 0, 0, 0, 0, 0, 0, 0, 0, 0, 0, 100, 0, 0, 2] 4 =
    ([82, 73, 70, 70, 60, 0, 0, 0, 87, 69, 66, 80, 86, 80, 56, 88, 10, 0, 0, 0,
      18, 0, 0, 0, 0, 0, 0, 0, 0, 0, 65, 78, 73, 77, 6, 0, 0, 0, 255, 255, 255, 0, 0, 0,
      65, 78, 77, 70, 16, 0, 0, 0, 0, 0, 0, 0, 0, 0, 0, 0, 0, 0, 0, 0, 100, 0, 0,
      2] : List Nat).length - 8 :=
  (C9_assembleWebP_container [([], 100)] 1 1 _ (by decide) (by decide) (by decide)).1

/-! ## Frame model and sequence mutations (App.tsx)

Real-valued transform fields are modelled as rationals; the JavaScript
numbers involved in the proved statements are values on which double
arithmetic is exact, except where noted (`round4`). -/

/-- The transform-relevant part of a `Frame` (App.tsx lines 166-179). -/
structure Frame where
  id : Nat
  width : Nat
  height : Nat
  delay : Nat
  offsetX : ℚ
  offsetY : ℚ
  scale : ℚ
  rotation : ℚ
deriving DecidableEq

def defaultFrame : Frame := ⟨0, 0, 0, 0, 0, 0, 1, 0⟩

/-- The base-frame normalisation every sequence mutation applies to a
non-empty list (App.tsx lines 458-466, 526-534, 556-564):
`frames[0] = { ...frames[0], scale: 1, offsetX: 0, offsetY: 0, rotation: 0 }`. -/
def forceBaseIdentity : List Frame → List Frame
  | [] => []
  | f :: fs => { f with scale := 1, offsetX := 0, offsetY := 0, rotation := 0 } :: fs

/-- `handleFiles`' state update (lines 455-468): append the newly
imported frames, then force the base frame to the identity transform. -/
def handleFilesUpdate (prev newFrames : List Frame) : List Frame :=
  forceBaseIdentity (prev ++ newFrames)

/-- `removeFrame` (lines 505-538): drop the frame with the given id;
if exactly one frame remains, reset its transform; then force the base
frame (the `length > 0` guard is the empty case of
`forceBaseIdentity`). -/
def removeFrame (frames : List Frame) (i : Nat) : List Frame :=
  forceBaseIdentity
    (if (frames.filter (fun f => f.id ≠ i)).length = 1
     then forceBaseIdentity (frames.filter (fun f => f.id ≠ i))
     else frames.filter (fun f => f.id ≠ i))

/-- `handleSortOver` (lines 545-567): on dragging frame `draggedId`
over frame `targetId`, splice the dragged frame out and re-insert it at
the target's index, then force the base frame; if the ids coincide or
either id is not found, the state is unchanged. -/
def handleSortOver (frames : List Frame) (draggedId targetId : Nat) : List Frame :=
  if draggedId = targetId then frames
  else
    match frames.findIdx? (fun f => f.id == draggedId),
        frames.findIdx? (fun f => f.id == targetId) with
    | some di, some ti =>
      forceBaseIdentity ((frames.eraseIdx di).insertIdx ti (frames.getD di defaultFrame))
    | _, _ => frames

/-- States of the frame sequence reachable through the three sequence
mutations (insertion, deletion, drag-reorder) from the empty initial
state. -/
inductive Reachable : List Frame → Prop
  | init : Reachable []
  | upload (s newFrames) : Reachable s → Reachable (handleFilesUpdate s newFrames)
  | remove (s i) : Reachable s → Reachable (removeFrame s i)
  | reorder (s d t) : Reachable s → Reachable (handleSortOver s d t)

theorem forceBaseIdentity_head (l : List Frame) (f : Frame)
    (h : (forceBaseIdentity l).head? = some f) :
    f.offsetX = 0 ∧ f.offsetY = 0 ∧ f.scale = 1 ∧ f.rotation = 0 := by
  cases l with
  | nil => simp [forceBaseIdentity] at h
  | cons a as =>
    unfold forceBaseIdentity at h
    rw [List.head?_cons] at h
    obtain rfl := Option.some.inj h
    exact ⟨rfl, rfl, rfl, rfl⟩

/-- Every reachable non-empty frame sequence has an identity-transform
base frame. -/
theorem reachable_head_identity (s : List Frame) (hs : Reachable s) :
    ∀ f, s.head? = some f →
      f.offsetX = 0 ∧ f.offsetY = 0 ∧ f.scale = 1 ∧ f.rotation = 0 := by
  induction hs with
  | init =>
    intro f hf
    simp at hf
  | upload s newFrames _ _ =>
    intro f hf
    exact forceBaseIdentity_head _ _ hf
  | remove s i _ _ =>
    intro f hf
    exact forceBaseIdentity_head _ _ hf
  | reorder s d t _ ih =>
    intro f hf
    unfold handleSortOver at hf
    by_cases hdt : d = t
    · rw [if_pos hdt] at hf
      exact ih f hf
    · rw [if_neg hdt] at hf
      cases hfd : s.findIdx? (fun fr => fr.id == d) with
      | none =>
        rw [hfd] at hf
        cases hft : s.findIdx? (fun fr => fr.id == t) with
        | none =>
          rw [hft] at hf
          exact ih f hf
        | some ti =>
          rw [hft] at hf
          exact ih f hf
      | some di =>
        rw [hfd] at hf
        cases hft : s.findIdx? (fun fr => fr.id == t) with
        | none =>
          rw [hft] at hf
          exact ih f hf
        | some ti =>
          rw [hft] at hf
          exact forceBaseIdentity_head _ _ hf

/-- C7: after every mutation of the frame sequence — insertion,
deletion, drag-reorder, and any sequence of them — the resulting
non-empty sequence has an identity transform on its frame at index 0:
`offsetX = offsetY = 0`, `scale = 1`, `rotation = 0`. -/
theorem C7_base_frame_identity (s : List Frame) (hs : Reachable s) (f : Frame)
    (hf : s.head? = some f) :
    f.offsetX = 0 ∧ f.offsetY = 0 ∧ f.scale = 1 ∧ f.rotation = 0 :=
  reachable_head_identity s hs f hf

/-- Closed instantiation of `C7_base_frame_identity`: uploading a
single frame whose stored transform is non-identity yields a state
whose base frame carries the identity transform. -/
theorem C7_base_frame_identity_witness :
    (Frame.mk 1 4 4 100 0 0 1 0).offsetX = 0 ∧
    (Frame.mk 1 4 4 100 0 0 1 0).offsetY = 0 ∧
    (Frame.mk 1 4 4 100 0 0 1 0).scale = 1 ∧
    (Frame.mk 1 4 4 100 0 0 1 0).rotation = 0 :=
  C7_base_frame_identity (handleFilesUpdate [] [Frame.mk 1 4 4 100 2 3 5 90])
    (Reachable.upload [] [Frame.mk 1 4 4 100 2 3 5 90] Reachable.init)
    (Frame.mk 1 4 4 100 0 0 1 0) rfl

/-! ## Export-time composition (`generateAPNG` lines 591-608 and
`generateWebP` lines 644-658) -/

/-- The draw call the export loops issue for one frame: both loops run
`scale = frame.scale || 1`, `rotation = frame.rotation || 0`, translate
to `(width/2 + offsetX, height/2 + offsetY)`, rotate by `rotation`
degrees, scale by `scale`, and draw the source image centred.  For a
number `x`, `x || d` is `d` exactly when `x` is falsy (`0`), so
`rotation || 0` is `rotation` itself and `scale || 1` maps `0` to `1`. -/
structure DrawCall where
  cx : ℚ
  cy : ℚ
  rotation : ℚ
  scale : ℚ
deriving DecidableEq

def composeParams (width height : Nat) (f : Frame) : DrawCall :=
  { cx := (width : ℚ) / 2 + f.offsetX
    cy := (height : ℚ) / 2 + f.offsetY
    rotation := f.rotation
    scale := if f.scale = 0 then 1 else f.scale }

/-- The identity draw call: offset (0,0), scale 1, rotation 0. -/
def identityDraw (width height : Nat) : DrawCall :=
  { cx := (width : ℚ) / 2, cy := (height : ℚ) / 2, rotation := 0, scale := 1 }

/-- C3 counterexample: the export loops compose every frame — the base
frame included — with its *stored* transform; there is no
defense-in-depth forcing in `generateAPNG`/`generateWebP`.  A frame
sitting at index 0 with a stored offset of 1 pixel is composed with a
draw call different from the identity draw call, refuting the claim
that the base frame is composed identically to the identity transform
regardless of its stored values. -/
theorem C3_base_compose_cex :
    composeParams 2 2 (Frame.mk 1 2 2 100 1 0 1 0) ≠ identityDraw 2 2 := by
  intro h
  have hcx := congrArg DrawCall.cx h
  simp only [composeParams, identityDraw] at hcx
  norm_num at hcx

/-- C3 (amended): the export loops compose the base frame with its
stored transform, and along every sequence of add/remove/reorder
mutations the stored transform of the frame at index 0 is the
identity; hence for every reachable state the base frame's draw call
equals the identity draw call — including after a previously
non-identity frame becomes index 0. -/
theorem C3_base_compose_identity (w h : Nat) (s : List Frame) (hs : Reachable s)
    (f : Frame) (hf : s.head? = some f) :
    composeParams w h f = identityDraw w h := by
  obtain ⟨h1, h2, h3, h4⟩ := reachable_head_identity s hs f hf
  unfold composeParams identityDraw
  rw [h1, h2, h3, h4]
  simp

/-- Closed instantiation of `C3_base_compose_identity` on a reachable
state obtained by uploading one frame with a non-identity stored
transform. -/
theorem C3_base_compose_identity_witness :
    composeParams 4 4 (Frame.mk 1 4 4 100 0 0 1 0) = identityDraw 4 4 :=
  C3_base_compose_identity 4 4 (handleFilesUpdate [] [Frame.mk 1 4 4 100 2 3 5 90])
    (Reachable.upload [] [Frame.mk 1 4 4 100 2 3 5 90] Reachable.init)
    (Frame.mk 1 4 4 100 0 0 1 0) rfl

/-! ## Smart Align (`handleSmartAlign`, App.tsx lines 476-492) -/

/-- `parseFloat(x.toFixed(4))` for the non-negative scales produced by
Smart Align: round half-up to 4 decimal places. -/
def round4 (q : ℚ) : ℚ := (⌊q * 10000 + 1 / 2⌋ : ℚ) / 10000

/-- `handleSmartAlign` (lines 476-492): no-op below 2 frames; the base
frame (index 0) is skipped; every other frame's scale becomes
`parseFloat(Math.max(baseW / width, baseH / height).toFixed(4))`,
offsets and rotation untouched. -/
def handleSmartAlign (frames : List Frame) : List Frame :=
  if frames.length < 2 then frames
  else
    frames.mapIdx (fun i f =>
      if i = 0 then f
      else { f with scale := round4 (max
        (((frames.getD 0 defaultFrame).width : ℚ) / f.width)
        (((frames.getD 0 defaultFrame).height : ℚ) / f.height)) })

/-- C8 counterexample: with a 100x100 base and a 50x200 candidate
(`w < W`, `h > H`), Smart Align stores scale `max(100/50, 100/200) = 2`,
not `H/h = 1/2` as the claim's instance asserts; and with a 3x3 base
and a 7x7 candidate the stored scale is the 4-decimal rounding
`0.4286`, not the exact `max(3/7, 3/7) = 3/7` the claim's general part
asserts. -/
theorem C8_smart_align_cex :
    ((handleSmartAlign
        [Frame.mk 1 100 100 100 0 0 1 0, Frame.mk 2 50 200 100 0 0 1 0]).getD 1
      defaultFrame).scale ≠ (100 : ℚ) / 200 ∧
    ((handleSmartAlign
        [Frame.mk 1 3 3 100 0 0 1 0, Frame.mk 2 7 7 100 0 0 1 0]).getD 1
      defaultFrame).scale ≠ max ((3 : ℚ) / 7) ((3 : ℚ) / 7) := by
  constructor
  · have hscale : ((handleSmartAlign
        [Frame.mk 1 100 100 100 0 0 1 0, Frame.mk 2 50 200 100 0 0 1 0]).getD 1
        defaultFrame).scale = round4 (max (((100 : Nat) : ℚ) / ((50 : Nat) : ℚ))
          (((100 : Nat) : ℚ) / ((200 : Nat) : ℚ))) := by
      unfold handleSmartAlign
      rw [if_neg (by decide)]
      rw [List.getD_eq_getElem?_getD, List.getElem?_mapIdx]
      rfl
    rw [hscale]
    unfold round4
    norm_num
  · have hscale : ((handleSmartAlign
        [Frame.mk 1 3 3 100 0 0 1 0, Frame.mk 2 7 7 100 0 0 1 0]).getD 1
        defaultFrame).scale = round4 (max (((3 : Nat) : ℚ) / ((7 : Nat) : ℚ))
          (((3 : Nat) : ℚ) / ((7 : Nat) : ℚ))) := by
      unfold handleSmartAlign
      rw [if_neg (by decide)]
      rw [List.getD_eq_getElem?_getD, List.getElem?_mapIdx]
      rfl
    rw [hscale]
    unfold round4
    norm_num

/-- C8 (amended): Smart Align leaves the sequence length and the base
frame untouched and, for every non-base frame of dimensions `w x h`
against a base of `W x H`, replaces only its scale by
`round4 (max (W/w) (H/h))` — the 4-decimal rounding JavaScript's
`parseFloat(x.toFixed(4))` applies, which the original claim omitted —
keeping offsets and rotation unchanged.  In particular a frame with
`w < W` and `h > H` receives `round4 (W/w)` (the *larger* ratio — not
`H/h` as the original claim asserted), and a frame with `w = 2W`,
`h = 2H` receives exactly `1/2`. -/
theorem C8_smart_align_amended (frames : List Frame) (h2 : 2 ≤ frames.length)
    (hpos : ∀ f ∈ frames, 0 < f.width ∧ 0 < f.height) :
    (handleSmartAlign frames).length = frames.length ∧
    (handleSmartAlign frames).getD 0 defaultFrame = frames.getD 0 defaultFrame ∧
    ∀ i, 1 ≤ i → i < frames.length →
      (handleSmartAlign frames).getD i defaultFrame =
        { frames.getD i defaultFrame with scale := round4 (max
          (((frames.getD 0 defaultFrame).width : ℚ) / ((frames.getD i defaultFrame).width : ℚ))
          (((frames.getD 0 defaultFrame).height : ℚ) /
            ((frames.getD i defaultFrame).height : ℚ))) } ∧
      ((frames.getD i defaultFrame).width < (frames.getD 0 defaultFrame).width →
        (frames.getD 0 defaultFrame).height < (frames.getD i defaultFrame).height →
        ((handleSmartAlign frames).getD i defaultFrame).scale =
          round4 (((frames.getD 0 defaultFrame).width : ℚ) /
            ((frames.getD i defaultFrame).width : ℚ))) ∧
      ((frames.getD i defaultFrame).width = 2 * (frames.getD 0 defaultFrame).width →
        (frames.getD i defaultFrame).height = 2 * (frames.getD 0 defaultFrame).height →
        ((handleSmartAlign frames).getD i defaultFrame).scale = 1 / 2) := by
  have hnot2 : ¬ frames.length < 2 := by omega
  have hmem : ∀ j, j < frames.length → frames.getD j defaultFrame ∈ frames := by
    intro j hj
    rw [List.getD_eq_getElem frames defaultFrame hj]
    exact List.getElem_mem hj
  have hget : ∀ j, j < frames.length →
      (handleSmartAlign frames).getD j defaultFrame =
        (fun i f =>
          if i = 0 then f
          else { f with scale := round4 (max
            (((frames.getD 0 defaultFrame).width : ℚ) / (f.width : ℚ))
            (((frames.getD 0 defaultFrame).height : ℚ) / (f.height : ℚ))) }) j
          (frames.getD j defaultFrame) := by
    intro j hj
    unfold handleSmartAlign
    rw [if_neg hnot2]
    rw [List.getD_eq_getElem?_getD, List.getElem?_mapIdx, List.getElem?_eq_getElem hj,
      List.getD_eq_getElem frames defaultFrame hj]
    rfl
  refine ⟨?_, ?_, ?_⟩
  · unfold handleSmartAlign
    rw [if_neg hnot2, List.length_mapIdx]
  · rw [hget 0 (by omega)]
    simp
  · intro i h1 hi
    have hrec : (handleSmartAlign frames).getD i defaultFrame =
        { frames.getD i defaultFrame with scale := round4 (max
          (((frames.getD 0 defaultFrame).width : ℚ) / ((frames.getD i defaultFrame).width : ℚ))
          (((frames.getD 0 defaultFrame).height : ℚ) /
            ((frames.getD i defaultFrame).height : ℚ))) } := by
      rw [hget i hi]
      have hi0 : ¬ i = 0 := by omega
      simp [hi0]
    have hW : 0 < (frames.getD 0 defaultFrame).width ∧ 0 < (frames.getD 0 defaultFrame).height :=
      hpos _ (hmem 0 (by omega))
    have hw : 0 < (frames.getD i defaultFrame).width ∧ 0 < (frames.getD i defaultFrame).height :=
      hpos _ (hmem i hi)
    refine ⟨hrec, ?_, ?_⟩
    · intro hlt1 hlt2
      rw [hrec]
      show round4 _ = _
      congr 1
      apply max_eq_left
      have ha : (1 : ℚ) < ((frames.getD 0 defaultFrame).width : ℚ) /
          ((frames.getD i defaultFrame).width : ℚ) :=
        (one_lt_div (by exact_mod_cast hw.1)).mpr (by exact_mod_cast hlt1)
      have hb : ((frames.getD 0 defaultFrame).height : ℚ) /
          ((frames.getD i defaultFrame).height : ℚ) < 1 :=
        (div_lt_one (by exact_mod_cast (by omega : 0 < (frames.getD i defaultFrame).height))).mpr
          (by exact_mod_cast hlt2)
      exact le_of_lt (lt_trans hb ha)
    · intro he1 he2
      rw [hrec]
      show round4 _ = _
      have hW0 : ((frames.getD 0 defaultFrame).width : ℚ) ≠ 0 := by
        exact_mod_cast Nat.pos_iff_ne_zero.mp hW.1
      have hH0 : ((frames.getD 0 defaultFrame).height : ℚ) ≠ 0 := by
        exact_mod_cast Nat.pos_iff_ne_zero.mp hW.2
      have hr1 : ((frames.getD 0 defaultFrame).width : ℚ) /
          ((frames.getD i defaultFrame).width : ℚ) = 1 / 2 := by
        rw [he1]
        push_cast
        rw [mul_comm, ← div_div, div_self hW0]
      have hr2 : ((frames.getD 0 defaultFrame).height : ℚ) /
          ((frames.getD i defaultFrame).height : ℚ) = 1 / 2 := by
        rw [he2]
        push_cast
        rw [mul_comm, ← div_div, div_self hH0]
      rw [hr1, hr2, max_self]
      unfold round4
      norm_num

/-- Closed instantiation of `C8_smart_align_amended` on a 100x100 base
with a 50x200 candidate (`w < W`, `h > H`): the stored scale is the
rounding of the larger ratio `W/w`. -/
theorem C8_smart_align_amended_witness :
    ((handleSmartAlign
        [Frame.mk 1 100 100 100 0 0 1 0, Frame.mk 2 50 200 100 0 0 1 0]).getD 1
      defaultFrame).scale = round4 (((100 : Nat) : ℚ) / ((50 : Nat) : ℚ)) :=
  ((C8_smart_align_amended
    [Frame.mk 1 100 100 100 0 0 1 0, Frame.mk 2 50 200 100 0 0 1 0]
    (by decide) (by decide)).2.2 1 (by decide) (by decide)).2.1 (by decide) (by decide)

end AIC
